import Mathlib

/-!
# Verification of the Guess_Number_AI solver core

A shallow embedding of `main.py` (classes `GuessNumberChecker`, `GuessNumberTree`,
`GuessNumberAI`) together with proofs about the embedded operations.

Modelling conventions:
* Python `str` values are embedded as `List Char`; indexing `s[i]` becomes
  `List.getD i ' '` (total; the default is irrelevant on the length-4 strings the
  program manipulates, where Python would never hit an out-of-range index).
* Python `set` values (`GuessNumberAI._records`, `_numbers`) are embedded as
  duplicate-free lists.  Every operation the program performs on these sets
  (filtering, size, iteration to count bucket sizes, `next(iter(...))` on a
  singleton) is insensitive to iteration order, so the list embedding is faithful.
* The decision tree of `GuessNumberTree` is embedded as an inductive tree whose
  nodes carry a guess string and a list of 25 optional children, exactly like
  `TreeNode.record` / `TreeNode.next = [None] * 25`.  Mutation is embedded by
  path-copying.
* `1e5`, the initial minimax score in `GuessNumberAI.guess`, is embedded as the
  natural number `100000`: every comparison performed against it is between that
  float and a bucket count, which is a small integer, so the comparison is exact.
-/

set_option maxRecDepth 20000

namespace GuessNumber

/-- Models Python's `str.isnumeric` at a single character.  On ASCII characters
Python's predicate accepts exactly the decimal digits `'0'`-`'9'`; outside ASCII
it accepts every Unicode character with a numeric value.  Of those non-ASCII
numeric characters this development tabulates only the ones it actually uses
(superscript digits and vulgar fractions, all of which Python reports as
numeric and none of which is an ASCII digit). -/
def pyIsNumeric (c : Char) : Bool :=
  c.isDigit || c = '¼' || c = '½' || c = '²' || c = '³'

/-- Models Python's `str.isnumeric` on a whole string: the string is non-empty
and every character is numeric. -/
def pyIsNumericStr (s : List Char) : Bool :=
  !s.isEmpty && s.all pyIsNumeric

/-- `GuessNumberChecker.is_valid_answer` / `GuessNumberAI.is_valid_answer`
(the two methods are textually identical): length must be 4, the string must be
numeric (`str.isnumeric`), and for each `i in range(3)` the character `target[i]`
must not occur in the slice `target[i+1:]`. -/
def isValidAnswer (target : List Char) : Bool :=
  if target.length ≠ 4 then false
  else if !(pyIsNumericStr target) then false
  else if (List.range 3).any (fun i => (target.drop (i + 1)).contains (target.getD i ' ')) then false
  else true

/-- One iteration of the counting loop shared by `GuessNumberChecker.answer`,
`GuessNumberAI._check_result` and `GuessNumberAI._calculate_score`:
`if number[i] == key[i]: count_a += 1 elif number[i] in key: count_b += 1`. -/
def scoreStep (number key : List Char) (c : Nat × Nat) (i : Nat) : Nat × Nat :=
  if number.getD i ' ' = key.getD i ' ' then (c.1 + 1, c.2)
  else if key.contains (number.getD i ' ') then (c.1, c.2 + 1)
  else c

/-- The shared counting loop (`for i in range(4)`) of `GuessNumberChecker.answer`,
`GuessNumberAI._check_result` and `GuessNumberAI._calculate_score`.
Returns `(count_a, count_b)`. -/
def scorePair (number key : List Char) : Nat × Nat :=
  [0, 1, 2, 3].foldl (scoreStep number key) (0, 0)

/-- `GuessNumberChecker.answer`: formats the scorer counts of the query against
the stored answer number as the string `'{}A{}B'`. -/
def answer (answerNumber query : List Char) : List Char :=
  [Nat.digitChar (scorePair query answerNumber).1, 'A',
   Nat.digitChar (scorePair query answerNumber).2, 'B']

/-- Python's `'{:04d}'.format(i)` for `i < 10000`: the four decimal digits of
`n`, zero padded. -/
def format4 (n : Nat) : List Char :=
  [Nat.digitChar (n / 1000 % 10), Nat.digitChar (n / 100 % 10),
   Nat.digitChar (n / 10 % 10), Nat.digitChar (n % 10)]

/-- The candidate space built in `GuessNumberAI.__init__`:
`self._numbers = {'{:04d}'.format(i) for i in range(10000) if is_valid_answer(...)}`
and `self._number_list = list(sorted(self._numbers))`.  Python's `range(10000)`
is embedded as `List.range' 0 10000`, the list `[0, 1, ..., 9999]`.  The generator already
enumerates the (pairwise distinct) strings in ascending order, so sorting the
set reproduces the generation order; the embedding keeps that order, and the
theorems below prove it is strictly ascending. -/
def numberList : List (List Char) :=
  ((List.range' 0 10000).map format4).filter isValidAnswer

/-- `GuessNumberTree.TreeNode`: a guess string (`record`) and up to 25 children
(`next`), one slot per feedback pair index `a * 5 + b`. -/
inductive GTree where
  | node (record : List Char) (next : List (Option GTree)) : GTree

/-- The stored guess of a node (`TreeNode.record`). -/
def GTree.record : GTree → List Char
  | GTree.node r _ => r

/-- The child array of a node (`TreeNode.next`). -/
def GTree.children : GTree → List (Option GTree)
  | GTree.node _ ch => ch

/-- `tree_node.next[i]`, totalised with `none` out of range. -/
def GTree.child (t : GTree) (i : Nat) : Option GTree :=
  t.children.getD i none

/-- The tree produced by `GuessNumberTree.initialize`: a root holding the fixed
opening guess `'0123'` and 25 empty child slots. -/
def mkTree : GTree :=
  GTree.node ['0', '1', '2', '3'] (List.replicate 25 none)

/-- The walk shared by `GuessNumberAI._search_tree` and `_update_tree`:
`for key in self._log: if tree_node.next[key[0]*5+key[1]] is not None:
 tree_node = tree_node.next[...]`.  Note that an absent child is *skipped*
(the walk stays at the current node and keeps consuming log entries). -/
def walkLog : List (Nat × Nat) → GTree → GTree
  | [], t => t
  | k :: rest, GTree.node r ch =>
    match ch.getD (k.1 * 5 + k.2) none with
    | none => walkLog rest (GTree.node r ch)
    | some t' => walkLog rest t'

/-- `GuessNumberAI._search_tree`: walk the log, then return the record of the
child for `(a, b)` at the reached node, or `''` (here `[]`) if that child is
absent. -/
def searchTreeFn (log : List (Nat × Nat)) (t : GTree) (a b : Nat) : List Char :=
  match (walkLog log t).child (a * 5 + b) with
  | none => []
  | some t' => t'.record

/-- `GuessNumberAI._update_tree`: the same walk as `_search_tree` (with the same
skipping of absent children), then, if the child for `(a, b)` at the reached node
is absent, create it with record `next_guess`.  Mutation is embedded by
path-copying along the walk. -/
def updateTreeFn : List (Nat × Nat) → GTree → List Char → Nat → Nat → GTree
  | [], GTree.node r ch, g, a, b =>
    match ch.getD (a * 5 + b) none with
    | none => GTree.node r (ch.set (a * 5 + b) (some (GTree.node g (List.replicate 25 none))))
    | some _ => GTree.node r ch
  | k :: rest, GTree.node r ch, g, a, b =>
    match ch.getD (k.1 * 5 + k.2) none with
    | none => updateTreeFn rest (GTree.node r ch) g a b
    | some t' => GTree.node r (ch.set (k.1 * 5 + k.2) (some (updateTreeFn rest t' g a b)))

/-- The mutable state of a `GuessNumberAI` instance: `_previous`, `_log`,
`_records` and the decision tree `_tree` (the immutable `_numbers` /
`_number_list` are the global `numberList`). -/
structure AIState where
  previous : List Char
  log : List (Nat × Nat)
  records : List (List Char)
  tree : GTree

/-- `GuessNumberAI.initialize`: reset `_previous` to `''`, `_log` to `[]` and
`_records` to a copy of the full candidate space; the decision tree is not
touched. -/
def initializeEngine (s : AIState) : AIState :=
  ⟨[], [], numberList, s.tree⟩

/-- A fresh engine, `GuessNumberAI()`: `__init__` builds the candidate space and
a fresh tree, then calls `initialize`. -/
def mkAI : AIState :=
  ⟨[], [], numberList, mkTree⟩

/-- `GuessNumberAI._check_result`: run the counting loop of the scorer between
`number` and `self._previous` and compare the counts with `(a, b)`. -/
def checkResult (number previous : List Char) (a b : Nat) : Bool :=
  ((scorePair number previous).1 == a) && ((scorePair number previous).2 == b)

/-- `GuessNumberAI._filter_record`: delete from the record set every `key` with
`not self._check_result(key, a, b)`; what survives is exactly the filter by
`_check_result`. -/
def filterRecord (records : List (List Char)) (previous : List Char) (a b : Nat) :
    List (List Char) :=
  records.filter (fun key => checkResult key previous a b)

/-- The bucket index `count_a * 5 + count_b` computed inline by
`GuessNumberAI._calculate_score`. -/
def bucketIndex (number key : List Char) : Nat :=
  (scorePair number key).1 * 5 + (scorePair number key).2

/-- The 25-bucket histogram built by `GuessNumberAI._calculate_score`:
`result = [0] * 25`, then `result[count_a * 5 + count_b] += 1` per record. -/
def histFold (number : List Char) (records : List (List Char)) (init : List Nat) :
    List Nat :=
  records.foldl
    (fun result key => result.set (bucketIndex number key) (result.getD (bucketIndex number key) 0 + 1))
    init

/-- `GuessNumberAI._calculate_score`: the largest bucket of the histogram
(`max(*result)`, embedded as a `max` fold over the 25 non-negative entries). -/
def calculateScore (records : List (List Char)) (number : List Char) : Nat :=
  (histFold number records (List.replicate 25 0)).foldl max 0

/-- The minimax scan inside `GuessNumberAI.guess`:
`candidate = ('', 1e5); for key in self._number_list: ... if key_score <
candidate[1]: candidate = (key, key_score)`. -/
def selectCandidate (records : List (List Char)) : List Char × Nat :=
  numberList.foldl
    (fun c key =>
      if calculateScore records key < c.2 then (key, calculateScore records key) else c)
    ([], 100000)

/-- Python's `int(...)` applied to the single digit characters of a result
string such as `'3A1B'`. -/
def pyInt (c : Char) : Nat :=
  c.toNat - 48

/-- `GuessNumberAI.guess`.  `result = None` starts a new game (re-initialize,
return the fixed opening guess `'0123'`); otherwise parse `a = int(result[0])`,
`b = int(result[2])`, filter the record set, return the lone survivor if exactly
one record remains (no other state change), otherwise consult the decision tree
and fall back to the minimax scan (inserting its choice into the tree) on a
miss; both of the latter branches store the guess in `_previous` and append
`(a, b)` to `_log`. -/
def guess (s : AIState) (result : Option (List Char)) : AIState × List Char :=
  match result with
  | none =>
    (⟨['0', '1', '2', '3'], [], numberList, s.tree⟩, ['0', '1', '2', '3'])
  | some res =>
    let a := pyInt (res.getD 0 ' ')
    let b := pyInt (res.getD 2 ' ')
    let records1 := filterRecord s.records s.previous a b
    if records1.length = 1 then
      (⟨s.previous, s.log, records1, s.tree⟩, records1.headD [])
    else
      let sr := searchTreeFn s.log s.tree a b
      if sr ≠ [] then
        (⟨sr, s.log ++ [(a, b)], records1, s.tree⟩, sr)
      else
        (⟨(selectCandidate records1).1, s.log ++ [(a, b)], records1,
          updateTreeFn s.log s.tree (selectCandidate records1).1 a b⟩,
         (selectCandidate records1).1)

/-- Drive one game's feedback strings through `guess`, collecting the guesses
and, for each round in which the minimax scan ran (record set not a singleton
and decision-tree miss), the history path `log ++ [(a, b)]` at which its result
was inserted into the tree. -/
def runGame : AIState → List (List Char) → AIState × List (List Char) × List (List (Nat × Nat))
  | s, [] => (s, [], [])
  | s, fb :: rest =>
    let a := pyInt (fb.getD 0 ' ')
    let b := pyInt (fb.getD 2 ' ')
    let step := guess s (some fb)
    let ran : Bool :=
      !((filterRecord s.records s.previous a b).length == 1) &&
        (searchTreeFn s.log s.tree a b == [])
    let next := runGame step.1 rest
    (next.1, step.2 :: next.2.1,
      (if ran then [s.log ++ [(a, b)]] else []) ++ next.2.2)

/-- A full game session on an engine: the initial `guess(None)` followed by one
`guess` per feedback string.  Returns the final state, all guesses in order, and
the history paths at which this session ran the minimax scan (equivalently, at
which it populated the decision tree). -/
def runSession (s : AIState) (fbs : List (List Char)) :
    AIState × List (List Char) × List (List (Nat × Nat)) :=
  let start := guess s none
  let rest := runGame start.1 fbs
  (rest.1, start.2 :: rest.2.1, rest.2.2)

/-- Strict lexicographic order on digit strings (which, for equal-length digit
strings, coincides with numeric order). -/
def lexLt : List Char → List Char → Bool
  | [], [] => false
  | [], _ :: _ => true
  | _ :: _, [] => false
  | a :: as, b :: bs => if a = b then lexLt as bs else decide (a < b)

/-- The list is strictly ascending with respect to `lexLt`. -/
def sortedAsc : List (List Char) → Bool
  | [] => true
  | [_] => true
  | a :: b :: t => lexLt a b && sortedAsc (b :: t)


/-- The sizes of the 25 buckets obtained by partitioning `records` according to
the scorer outcome `(A, B)` (bucket index `A * 5 + B`) of a prospective guess
`g` against each record, followed by their maximum: the specification-side
reading of `_calculate_score` ("the size of its largest bucket"). -/
def specScore (records : List (List Char)) (g : List Char) : Nat :=
  ((List.range 25).map
    (fun j => (records.filter (fun key => bucketIndex g key == j)).length)).foldl max 0

/-- The child indexes `a * 5 + b` of a feedback-pair history. -/
def idxPath (log : List (Nat × Nat)) : List Nat :=
  log.map (fun k => k.1 * 5 + k.2)

/-- Structural lookup of the node at a child-index path (no skipping): the
plain tree-shape reading used to reason about the walking functions. -/
def getNode : List Nat → GTree → Option GTree
  | [], t => some t
  | i :: p, t =>
    match t.child i with
    | none => none
    | some t' => getNode p t'

/-- Every prefix of the history's child-index path leads to a node: the walk of
`_search_tree` / `_update_tree` never meets an absent child. -/
def PathOk (log : List (Nat × Nat)) (t : GTree) : Prop :=
  ∀ p q : List Nat, p ++ q = idxPath log → (getNode p t).isSome

/-- Well-formed tree: every node has exactly 25 child slots (`[None] * 25`) and
a non-empty record, as every node the program ever builds does. -/
def WFTree (t : GTree) : Prop :=
  ∀ p n, getNode p t = some n → (GTree.children n).length = 25 ∧ GTree.record n ≠ []

/-- `t2` extends `t1`: every node of `t1` is present in `t2` with the same
record (more children may have been added). -/
def TreeExt (t1 t2 : GTree) : Prop :=
  ∀ p n1, getNode p t1 = some n1 →
    ∃ n2, getNode p t2 = some n2 ∧ GTree.record n2 = GTree.record n1

/-- Distinctness of the four decimal digits of `n`, computed directly on `n`:
a number-level restatement of `is_valid_answer` on zero-padded four-digit
strings, used to evaluate the candidate-space size. -/
def validNat (n : Nat) : Bool :=
  !(n / 1000 % 10 == n / 100 % 10 || n / 1000 % 10 == n / 10 % 10 || n / 1000 % 10 == n % 10 ||
    n / 100 % 10 == n / 10 % 10 || n / 100 % 10 == n % 10 || n / 10 % 10 == n % 10)

/-! ## Basic facts about the scorer loop -/

theorem scorePair_eq_steps (n k : List Char) :
    scorePair n k =
      scoreStep n k (scoreStep n k (scoreStep n k (scoreStep n k (0, 0) 0) 1) 2) 3 := rfl

theorem scoreStep_sum_le (n k : List Char) (c : Nat × Nat) (i : Nat) :
    (scoreStep n k c i).1 + (scoreStep n k c i).2 ≤ c.1 + c.2 + 1 := by
  unfold scoreStep; split_ifs <;> omega

theorem scoreStep_fst_le (n k : List Char) (c : Nat × Nat) (i : Nat) :
    (scoreStep n k c i).1 ≤ c.1 + 1 := by
  unfold scoreStep; split_ifs <;> simp

theorem scoreStep_fst_ge (n k : List Char) (c : Nat × Nat) (i : Nat) :
    c.1 ≤ (scoreStep n k c i).1 := by
  unfold scoreStep; split_ifs <;> simp

theorem scoreStep_fst_lt (n k : List Char) (c : Nat × Nat) (i : Nat)
    (h : c.1 < (scoreStep n k c i).1) : n.getD i ' ' = k.getD i ' ' := by
  unfold scoreStep at h; split_ifs at h with h1 h2
  · exact h1
  · exact absurd h (by simp)
  · exact absurd h (by simp)

theorem scoreStep_self (x : List Char) (c : Nat × Nat) (i : Nat) :
    scoreStep x x c i = (c.1 + 1, c.2) := by
  unfold scoreStep; rw [if_pos rfl]

theorem scorePair_sum_le (n k : List Char) :
    (scorePair n k).1 + (scorePair n k).2 ≤ 4 := by
  rw [scorePair_eq_steps]
  have h0 := scoreStep_sum_le n k (0, 0) 0
  have h1 := scoreStep_sum_le n k (scoreStep n k (0, 0) 0) 1
  have h2 := scoreStep_sum_le n k (scoreStep n k (scoreStep n k (0, 0) 0) 1) 2
  have h3 := scoreStep_sum_le n k (scoreStep n k (scoreStep n k (scoreStep n k (0, 0) 0) 1) 2) 3
  omega

theorem scorePair_self (x : List Char) : scorePair x x = (4, 0) := by
  rw [scorePair_eq_steps, scoreStep_self, scoreStep_self, scoreStep_self, scoreStep_self]

theorem length_eq_four {l : List Char} (h : l.length = 4) :
    ∃ a b c d, l = [a, b, c, d] := by
  match l, h with
  | [a, b, c, d], _ => exact ⟨a, b, c, d, rfl⟩

theorem scorePair_getD_eq (n k : List Char) (h : (scorePair n k).1 = 4) :
    ∀ i, i < 4 → n.getD i ' ' = k.getD i ' ' := by
  have e := scorePair_eq_steps n k
  have g0 := scoreStep_fst_ge n k (0, 0) 0
  have l0 := scoreStep_fst_le n k (0, 0) 0
  have g1 := scoreStep_fst_ge n k (scoreStep n k (0, 0) 0) 1
  have l1 := scoreStep_fst_le n k (scoreStep n k (0, 0) 0) 1
  have g2 := scoreStep_fst_ge n k (scoreStep n k (scoreStep n k (0, 0) 0) 1) 2
  have l2 := scoreStep_fst_le n k (scoreStep n k (scoreStep n k (0, 0) 0) 1) 2
  have g3 := scoreStep_fst_ge n k (scoreStep n k (scoreStep n k (scoreStep n k (0, 0) 0) 1) 2) 3
  have l3 := scoreStep_fst_le n k (scoreStep n k (scoreStep n k (scoreStep n k (0, 0) 0) 1) 2) 3
  rw [e] at h
  intro i hi
  interval_cases i
  · exact scoreStep_fst_lt n k (0, 0) 0 (by omega)
  · exact scoreStep_fst_lt n k (scoreStep n k (0, 0) 0) 1 (by omega)
  · exact scoreStep_fst_lt n k (scoreStep n k (scoreStep n k (0, 0) 0) 1) 2 (by omega)
  · exact scoreStep_fst_lt n k (scoreStep n k (scoreStep n k (scoreStep n k (0, 0) 0) 1) 2) 3
      (by omega)

theorem scorePair_fst_eq_four {x y : List Char} (hx : x.length = 4) (hy : y.length = 4)
    (h : (scorePair x y).1 = 4) : x = y := by
  have hall := scorePair_getD_eq x y h
  obtain ⟨a, b, c, d, rfl⟩ := length_eq_four hx
  obtain ⟨e, f, g, i, rfl⟩ := length_eq_four hy
  have e0 : a = e := hall 0 (by omega)
  have e1 : b = f := hall 1 (by omega)
  have e2 : c = g := hall 2 (by omega)
  have e3 : d = i := hall 3 (by omega)
  rw [e0, e1, e2, e3]


/-! ## List helpers for the histogram of `_calculate_score` -/

theorem getD_set_cases {α : Type} (l : List α) (i j : Nat) (v d : α) :
    (l.set i v).getD j d = if i = j ∧ i < l.length then v else l.getD j d := by
  induction l generalizing i j with
  | nil => simp [List.set]
  | cons x t ih =>
    cases i with
    | zero =>
      cases j with
      | zero => simp
      | succ j => simp
    | succ i =>
      cases j with
      | zero => simp
      | succ j =>
        simp only [List.set, List.getD_cons_succ, List.length_cons, ih i j]
        split_ifs <;> first
          | rfl
          | omega

theorem sum_set_getD_succ (l : List Nat) (i : Nat) (h : i < l.length) :
    (l.set i (l.getD i 0 + 1)).sum = l.sum + 1 := by
  induction l generalizing i with
  | nil => simp at h
  | cons x t ih =>
    cases i with
    | zero => simp [List.sum_cons]; omega
    | succ i =>
      simp only [List.length_cons] at h
      simp only [List.set, List.getD_cons_succ, List.sum_cons, ih i (by omega)]
      omega

theorem foldl_max_le_sum (l : List Nat) (a : Nat) : l.foldl max a ≤ a + l.sum := by
  induction l generalizing a with
  | nil => simp
  | cons x t ih =>
    simp only [List.foldl_cons, List.sum_cons]
    calc t.foldl max (max a x) ≤ max a x + t.sum := ih (max a x)
      _ ≤ a + (x + t.sum) := by omega

theorem bucketIndex_lt (n k : List Char) : bucketIndex n k < 25 := by
  have h := scorePair_sum_le n k
  unfold bucketIndex
  omega

theorem histFold_length (n : List Char) (R : List (List Char)) (init : List Nat) :
    (histFold n R init).length = init.length := by
  induction R generalizing init with
  | nil => rfl
  | cons k t ih =>
    simp only [histFold, List.foldl_cons] at *
    rw [ih]
    exact List.length_set ..

theorem histFold_sum (n : List Char) (R : List (List Char)) (init : List Nat)
    (hlen : init.length = 25) : (histFold n R init).sum = init.sum + R.length := by
  induction R generalizing init with
  | nil => simp [histFold]
  | cons k t ih =>
    simp only [histFold, List.foldl_cons] at *
    rw [ih _ (by rw [List.length_set]; exact hlen),
      sum_set_getD_succ _ _ (by rw [hlen]; exact bucketIndex_lt n k), List.length_cons]
    omega

/-- `_calculate_score` never exceeds the number of records: the largest bucket is
bounded by the total count. -/
theorem calculateScore_le (R : List (List Char)) (n : List Char) :
    calculateScore R n ≤ R.length := by
  unfold calculateScore
  calc (histFold n R (List.replicate 25 0)).foldl max 0
      ≤ 0 + (histFold n R (List.replicate 25 0)).sum := foldl_max_le_sum _ 0
    _ = R.length := by rw [histFold_sum n R _ (by simp), List.sum_replicate]; simp

theorem histFold_getD (n : List Char) (R : List (List Char)) (init : List Nat)
    (hlen : init.length = 25) (j : Nat) :
    (histFold n R init).getD j 0 =
      init.getD j 0 + (R.filter (fun k => bucketIndex n k == j)).length := by
  induction R generalizing init with
  | nil => simp [histFold]
  | cons k t ih =>
    simp only [histFold, List.foldl_cons] at *
    rw [ih _ (by rw [List.length_set]; exact hlen), getD_set_cases, List.filter_cons]
    by_cases hk : bucketIndex n k = j
    · have hj : j < 25 := hk ▸ bucketIndex_lt n k
      rw [if_pos ⟨hk, by omega⟩]
      simp only [hk, beq_self_eq_true, if_pos, List.length_cons]
      omega
    · have hb : (bucketIndex n k == j) = false := by simp [hk]
      rw [hb, if_neg (by intro hc; exact hk hc.1)]
      simp

/-! ## `_check_result`, `_filter_record` and `_calculate_score` -/

theorem checkResult_iff (n p : List Char) (a b : Nat) :
    checkResult n p a b = true ↔ scorePair n p = (a, b) := by
  unfold checkResult
  rw [Bool.and_eq_true, beq_iff_eq, beq_iff_eq, Prod.ext_iff]

theorem mem_filterRecord (records : List (List Char)) (previous key : List Char)
    (a b : Nat) :
    key ∈ filterRecord records previous a b ↔
      key ∈ records ∧ scorePair key previous = (a, b) := by
  unfold filterRecord
  rw [List.mem_filter, checkResult_iff]

theorem filterRecord_length_le (records : List (List Char)) (previous : List Char)
    (a b : Nat) :
    (filterRecord records previous a b).length ≤ records.length :=
  List.length_filter_le _ _

/-- `_calculate_score` computes exactly the size of the largest of the 25 buckets
of the record set under the scorer outcome of the probed guess. -/
theorem calculateScore_eq_specScore (R : List (List Char)) (g : List Char) :
    calculateScore R g = specScore R g := by
  unfold calculateScore specScore
  congr 1
  apply List.ext_getElem
  · rw [histFold_length]
    simp
  · intro j h1 h2
    have hj : j < 25 := by
      rw [histFold_length, List.length_replicate] at h1
      exact h1
    have hd := histFold_getD g R (List.replicate 25 0) (by simp) j
    rw [List.getD_eq_getElem _ _ h1] at hd
    have hz : (List.replicate 25 0).getD j 0 = 0 := by
      rw [List.getD_eq_getElem _ _ (by simpa using hj)]
      exact List.getElem_replicate ..
    rw [hz] at hd
    rw [hd]
    simp [hj]

/-! ## Small concrete facts about the candidate space -/

theorem isValidAnswer_length {s : List Char} (h : isValidAnswer s = true) :
    s.length = 4 := by
  by_contra hne
  unfold isValidAnswer at h
  rw [if_pos hne] at h
  exact Bool.noConfusion h

theorem mem_numberList_valid {s : List Char} (h : s ∈ numberList) :
    isValidAnswer s = true :=
  List.of_mem_filter h

theorem mem_numberList_length {s : List Char} (h : s ∈ numberList) : s.length = 4 :=
  isValidAnswer_length (mem_numberList_valid h)

theorem mem_numberList_ne_nil {s : List Char} (h : s ∈ numberList) : s ≠ [] := by
  intro hnil
  have := mem_numberList_length h
  rw [hnil] at this
  exact absurd this (by decide)

theorem headD_mem {α : Type} (l : List α) (d : α) (h : l ≠ []) : l.headD d ∈ l := by
  cases l with
  | nil => exact absurd rfl h
  | cons x t => exact List.mem_cons_self x t

theorem numberList_ne_nil : numberList ≠ [] := by decide

theorem numberList_headD : numberList.headD [] = ['0', '1', '2', '3'] := by decide

theorem c0123_mem_numberList : (['0', '1', '2', '3'] : List Char) ∈ numberList :=
  numberList_headD ▸ headD_mem numberList [] numberList_ne_nil

/-! ## The minimax scan of `guess` -/

/-- Characterisation of the running-minimum fold of the minimax scan: either no
element beats the initial score and the initial candidate survives, or the fold
returns the *first* element attaining the global minimum (strictly better than
everything before it, no worse than anything in the list). -/
theorem foldl_min_spec (f : List Char → Nat) (l : List (List Char))
    (g0 : List Char) (m0 : Nat) :
    (l.foldl (fun c k => if f k < c.2 then (k, f k) else c) (g0, m0) = (g0, m0) ∧
      ∀ k ∈ l, m0 ≤ f k) ∨
    (∃ pre k post, l = pre ++ k :: post ∧
      l.foldl (fun c k => if f k < c.2 then (k, f k) else c) (g0, m0) = (k, f k) ∧
      f k < m0 ∧ (∀ j ∈ pre, f k < f j) ∧ (∀ j ∈ l, f k ≤ f j)) := by
  induction l generalizing g0 m0 with
  | nil => exact Or.inl ⟨rfl, by simp⟩
  | cons x t ih =>
    by_cases hx : f x < m0
    · simp only [List.foldl_cons, if_pos hx]
      rcases ih x (f x) with ⟨heq, hall⟩ | ⟨pre, k, post, hsplit, heq, hlt, hpre, hall⟩
      · refine Or.inr ⟨[], x, t, by simp, heq, hx, by simp, ?_⟩
        intro j hj
        rcases List.mem_cons.mp hj with rfl | hj
        · exact le_refl _
        · exact hall j hj
      · refine Or.inr ⟨x :: pre, k, post, by rw [hsplit]; rfl, heq, lt_trans hlt hx, ?_, ?_⟩
        · intro j hj
          rcases List.mem_cons.mp hj with rfl | hj
          · exact hlt
          · exact hpre j hj
        · intro j hj
          rcases List.mem_cons.mp hj with rfl | hj
          · exact le_of_lt hlt
          · exact hall j (hsplit ▸ hj)
    · simp only [List.foldl_cons, if_neg hx]
      rcases ih g0 m0 with ⟨heq, hall⟩ | ⟨pre, k, post, hsplit, heq, hlt, hpre, hall⟩
      · refine Or.inl ⟨heq, ?_⟩
        intro j hj
        rcases List.mem_cons.mp hj with rfl | hj
        · omega
        · exact hall j hj
      · refine Or.inr ⟨x :: pre, k, post, by rw [hsplit]; rfl, heq, hlt, ?_, ?_⟩
        · intro j hj
          rcases List.mem_cons.mp hj with rfl | hj
          · omega
          · exact hpre j hj
        · intro j hj
          rcases List.mem_cons.mp hj with rfl | hj
          · omega
          · exact hall j (hsplit ▸ hj)

/-- On any record set of the size the program can produce (at most the 5040
candidates), the minimax scan returns the first candidate, in candidate-space
order, whose largest bucket is globally minimal. -/
theorem selectCandidate_spec (R : List (List Char)) (hR : R.length ≤ 5040) :
    ∃ pre post, numberList = pre ++ (selectCandidate R).1 :: post ∧
      (∀ j ∈ pre, calculateScore R (selectCandidate R).1 < calculateScore R j) ∧
      (∀ j ∈ numberList, calculateScore R (selectCandidate R).1 ≤ calculateScore R j) := by
  have hspec := foldl_min_spec (fun k => calculateScore R k) numberList [] 100000
  rcases hspec with ⟨heq, hall⟩ | ⟨pre, k, post, hsplit, heq, hlt, hpre, hall⟩
  · exfalso
    have h1 := hall _ c0123_mem_numberList
    have h2 := calculateScore_le R ['0', '1', '2', '3']
    omega
  · refine ⟨pre, post, ?_, ?_, ?_⟩
    · have : (selectCandidate R).1 = k := by rw [selectCandidate, heq]
      rw [this]
      exact hsplit
    · intro j hj
      have : (selectCandidate R).1 = k := by rw [selectCandidate, heq]
      rw [this]
      exact hpre j hj
    · intro j hj
      have : (selectCandidate R).1 = k := by rw [selectCandidate, heq]
      rw [this]
      exact hall j hj

theorem selectCandidate_mem (R : List (List Char)) (hR : R.length ≤ 5040) :
    (selectCandidate R).1 ∈ numberList := by
  obtain ⟨pre, post, hsplit, -, -⟩ := selectCandidate_spec R hR
  rw [hsplit]
  exact List.mem_append.mpr (Or.inr (List.mem_cons_self _ _))

theorem selectCandidate_ne_nil (R : List (List Char)) (hR : R.length ≤ 5040) :
    (selectCandidate R).1 ≠ [] :=
  mem_numberList_ne_nil (selectCandidate_mem R hR)

/-! ## Digit characters -/

theorem digitChar_isDigit {d : Nat} (h : d < 10) : (Nat.digitChar d).isDigit = true := by
  interval_cases d <;> decide

theorem digitChar_pyIsNumeric {d : Nat} (h : d < 10) : pyIsNumeric (Nat.digitChar d) = true := by
  interval_cases d <;> decide

theorem digitChar_inj {d1 d2 : Nat} (h1 : d1 < 10) (h2 : d2 < 10) :
    Nat.digitChar d1 = Nat.digitChar d2 ↔ d1 = d2 := by
  interval_cases d1 <;> interval_cases d2 <;> decide

theorem digitChar_lt {d1 d2 : Nat} (h : d1 < d2) (h2 : d2 < 10) :
    Nat.digitChar d1 < Nat.digitChar d2 := by
  interval_cases d2 <;> interval_cases d1 <;> decide

/-! ## A characterisation of `is_valid_answer` -/

theorem contains_iff_mem {l : List Char} {c : Char} : l.contains c = true ↔ c ∈ l := by
  induction l with
  | nil => simp
  | cons x t ih =>
    rw [List.contains_cons, Bool.or_eq_true, beq_iff_eq, ih, List.mem_cons]

/-- `is_valid_answer` accepts exactly the length-4 strings of pairwise distinct
`str.isnumeric` characters. -/
theorem isValidAnswer_iff (s : List Char) :
    isValidAnswer s = true ↔
      s.length = 4 ∧ (∀ c ∈ s, pyIsNumeric c = true) ∧ s.Nodup := by
  by_cases hlen : s.length = 4
  · obtain ⟨a, b, c, d, rfl⟩ := length_eq_four hlen
    unfold isValidAnswer
    rw [if_neg (by simp)]
    have e0 : List.drop (0 + 1) [a, b, c, d] = [b, c, d] := rfl
    have e1 : List.drop (1 + 1) [a, b, c, d] = [c, d] := rfl
    have e2 : List.drop (2 + 1) [a, b, c, d] = [d] := rfl
    have g0 : [a, b, c, d].getD 0 ' ' = a := rfl
    have g1 : [a, b, c, d].getD 1 ' ' = b := rfl
    have g2 : [a, b, c, d].getD 2 ' ' = c := rfl
    have hr3 : List.range 3 = [0, 1, 2] := rfl
    rcases hnum : pyIsNumericStr [a, b, c, d] with _ | _
    · rw [if_pos (by rfl)]
      constructor
      · intro h
        exact Bool.noConfusion h
      · rintro ⟨-, hn, -⟩
        have ht : pyIsNumericStr [a, b, c, d] = true := by
          unfold pyIsNumericStr
          rw [Bool.and_eq_true, List.all_eq_true]
          exact ⟨rfl, hn⟩
        rw [hnum] at ht
        exact Bool.noConfusion ht
    · rw [if_neg (by simp)]
      have hnum' : ∀ x ∈ [a, b, c, d], pyIsNumeric x = true := by
        unfold pyIsNumericStr at hnum
        rw [Bool.and_eq_true, List.all_eq_true] at hnum
        exact hnum.2
      rcases hany : ((List.range 3).any
          fun i => (List.drop (i + 1) [a, b, c, d]).contains ([a, b, c, d].getD i ' ')) with _ | _
      · rw [if_neg (by simp)]
        have hany' := List.any_eq_false.mp hany
        rw [hr3] at hany'
        have d0 := hany' 0 (by simp)
        have d1 := hany' 1 (by simp)
        have d2 := hany' 2 (by simp)
        rw [e0, g0] at d0
        rw [e1, g1] at d1
        rw [e2, g2] at d2
        have na : a ∉ [b, c, d] := fun hm => d0 (contains_iff_mem.mpr hm)
        have nb : b ∉ [c, d] := fun hm => d1 (contains_iff_mem.mpr hm)
        have nc : c ∉ [d] := fun hm => d2 (contains_iff_mem.mpr hm)
        constructor
        · rintro -
          refine ⟨rfl, hnum', ?_⟩
          simp only [List.nodup_cons, List.mem_cons, List.not_mem_nil, List.nodup_nil]
          simp only [List.mem_cons, List.not_mem_nil, or_false] at na nb nc
          push_neg at na nb nc ⊢
          tauto
        · rintro -
          rfl
      · rw [if_pos (by rfl)]
        constructor
        · intro h
          exact Bool.noConfusion h
        · rintro ⟨-, -, hnd⟩
          exfalso
          obtain ⟨i, hi, hc⟩ := List.any_eq_true.mp hany
          rw [hr3] at hi
          simp only [List.mem_cons, List.not_mem_nil, or_false] at hi
          simp only [List.nodup_cons, List.mem_cons, List.not_mem_nil, or_false] at hnd
          push_neg at hnd
          rcases hi with rfl | rfl | rfl
          · rw [e0, g0] at hc
            have hm := contains_iff_mem.mp hc
            simp only [List.mem_cons, List.not_mem_nil, or_false] at hm
            rcases hm with h | h | h
            · exact hnd.1.1 h
            · exact hnd.1.2.1 h
            · exact hnd.1.2.2 h
          · rw [e1, g1] at hc
            have hm := contains_iff_mem.mp hc
            simp only [List.mem_cons, List.not_mem_nil, or_false] at hm
            rcases hm with h | h
            · exact hnd.2.1.1 h
            · exact hnd.2.1.2 h
          · rw [e2, g2] at hc
            have hm := contains_iff_mem.mp hc
            simp only [List.mem_cons, List.not_mem_nil, or_false] at hm
            exact hnd.2.2.1 hm
  · constructor
    · intro h
      exact absurd (isValidAnswer_length h) hlen
    · rintro ⟨h4, -, -⟩
      exact absurd h4 hlen

/-! ## The candidate space: digit-level description, order, size -/

theorem isValidAnswer_format4 (n : Nat) : isValidAnswer (format4 n) = validNat n := by
  have m3 : n / 1000 % 10 < 10 := Nat.mod_lt _ (by omega)
  have m2 : n / 100 % 10 < 10 := Nat.mod_lt _ (by omega)
  have m1 : n / 10 % 10 < 10 := Nat.mod_lt _ (by omega)
  have m0 : n % 10 < 10 := Nat.mod_lt _ (by omega)
  rcases Bool.eq_false_or_eq_true (validNat n) with hv | hv <;> rw [hv]
  · rw [isValidAnswer_iff]
    unfold validNat at hv
    simp only [Bool.not_eq_true', Bool.or_eq_false_iff, beq_eq_false_iff_ne, Ne] at hv
    obtain ⟨⟨⟨⟨⟨h32, h31⟩, h30⟩, h21⟩, h20⟩, h10⟩ := hv
    refine ⟨rfl, ?_, ?_⟩
    · intro x hx
      unfold format4 at hx
      simp only [List.mem_cons, List.not_mem_nil, or_false] at hx
      rcases hx with rfl | rfl | rfl | rfl
      · exact digitChar_pyIsNumeric m3
      · exact digitChar_pyIsNumeric m2
      · exact digitChar_pyIsNumeric m1
      · exact digitChar_pyIsNumeric m0
    · unfold format4
      simp only [List.nodup_cons, List.mem_cons, List.not_mem_nil, or_false, List.nodup_nil]
      push_neg
      refine ⟨⟨?_, ?_, ?_⟩, ⟨?_, ?_⟩, ?_, not_false, trivial⟩ <;> intro hh
      · exact h32 ((digitChar_inj m3 m2).mp hh)
      · exact h31 ((digitChar_inj m3 m1).mp hh)
      · exact h30 ((digitChar_inj m3 m0).mp hh)
      · exact h21 ((digitChar_inj m2 m1).mp hh)
      · exact h20 ((digitChar_inj m2 m0).mp hh)
      · exact h10 ((digitChar_inj m1 m0).mp hh)
  · rw [Bool.eq_false_iff, Ne, isValidAnswer_iff]
    unfold validNat at hv
    simp only [Bool.not_eq_false', Bool.or_eq_true, beq_iff_eq] at hv
    rintro ⟨-, -, hnd⟩
    unfold format4 at hnd
    simp only [List.nodup_cons, List.mem_cons, List.not_mem_nil, or_false] at hnd
    push_neg at hnd
    rcases hv with (((((h | h) | h) | h) | h) | h)
    · exact hnd.1.1 ((digitChar_inj m3 m2).mpr h)
    · exact hnd.1.2.1 ((digitChar_inj m3 m1).mpr h)
    · exact hnd.1.2.2 ((digitChar_inj m3 m0).mpr h)
    · exact hnd.2.1.1 ((digitChar_inj m2 m1).mpr h)
    · exact hnd.2.1.2 ((digitChar_inj m2 m0).mpr h)
    · exact hnd.2.2.1 ((digitChar_inj m1 m0).mpr h)

theorem numberList_eq_natSide :
    numberList = ((List.range' 0 10000).filter (fun n => validNat n)).map format4 := by
  unfold numberList
  rw [List.filter_map]
  exact congrArg (List.map format4) (List.filter_congr (fun n _ => isValidAnswer_format4 n))

theorem range'_split_1000 (s n : Nat) :
    List.range' s (1000 + n) = List.range' s 1000 ++ List.range' (s + 1000) n := by
  have h := List.range'_append s 1000 n 1
  simp only [one_mul] at h
  rw [Nat.add_comm n 1000] at h
  exact h.symm

/-- The Candidate Space has exactly 5,040 members (evaluated in chunks of 1,000
input numbers over the digit-level description `validNat`). -/
theorem numberList_length : numberList.length = 5040 := by
  have s0 : List.range' 0 10000 = List.range' 0 1000 ++ List.range' 1000 9000 := by
    rw [(by norm_num : (10000 : Nat) = 1000 + 9000), range'_split_1000]
  have s1 : List.range' 1000 9000 = List.range' 1000 1000 ++ List.range' 2000 8000 := by
    rw [(by norm_num : (9000 : Nat) = 1000 + 8000), range'_split_1000]
  have s2 : List.range' 2000 8000 = List.range' 2000 1000 ++ List.range' 3000 7000 := by
    rw [(by norm_num : (8000 : Nat) = 1000 + 7000), range'_split_1000]
  have s3 : List.range' 3000 7000 = List.range' 3000 1000 ++ List.range' 4000 6000 := by
    rw [(by norm_num : (7000 : Nat) = 1000 + 6000), range'_split_1000]
  have s4 : List.range' 4000 6000 = List.range' 4000 1000 ++ List.range' 5000 5000 := by
    rw [(by norm_num : (6000 : Nat) = 1000 + 5000), range'_split_1000]
  have s5 : List.range' 5000 5000 = List.range' 5000 1000 ++ List.range' 6000 4000 := by
    rw [(by norm_num : (5000 : Nat) = 1000 + 4000), range'_split_1000]
  have s6 : List.range' 6000 4000 = List.range' 6000 1000 ++ List.range' 7000 3000 := by
    rw [(by norm_num : (4000 : Nat) = 1000 + 3000), range'_split_1000]
  have s7 : List.range' 7000 3000 = List.range' 7000 1000 ++ List.range' 8000 2000 := by
    rw [(by norm_num : (3000 : Nat) = 1000 + 2000), range'_split_1000]
  have s8 : List.range' 8000 2000 = List.range' 8000 1000 ++ List.range' 9000 1000 := by
    rw [(by norm_num : (2000 : Nat) = 1000 + 1000), range'_split_1000]
  have c0 : ((List.range' 0 1000).filter (fun n => validNat n)).length = 504 := by decide
  have c1 : ((List.range' 1000 1000).filter (fun n => validNat n)).length = 504 := by decide
  have c2 : ((List.range' 2000 1000).filter (fun n => validNat n)).length = 504 := by decide
  have c3 : ((List.range' 3000 1000).filter (fun n => validNat n)).length = 504 := by decide
  have c4 : ((List.range' 4000 1000).filter (fun n => validNat n)).length = 504 := by decide
  have c5 : ((List.range' 5000 1000).filter (fun n => validNat n)).length = 504 := by decide
  have c6 : ((List.range' 6000 1000).filter (fun n => validNat n)).length = 504 := by decide
  have c7 : ((List.range' 7000 1000).filter (fun n => validNat n)).length = 504 := by decide
  have c8 : ((List.range' 8000 1000).filter (fun n => validNat n)).length = 504 := by decide
  have c9 : ((List.range' 9000 1000).filter (fun n => validNat n)).length = 504 := by decide
  rw [numberList_eq_natSide, List.length_map, s0, List.filter_append, List.length_append, c0,
    s1, List.filter_append, List.length_append, c1,
    s2, List.filter_append, List.length_append, c2,
    s3, List.filter_append, List.length_append, c3,
    s4, List.filter_append, List.length_append, c4,
    s5, List.filter_append, List.length_append, c5,
    s6, List.filter_append, List.length_append, c6,
    s7, List.filter_append, List.length_append, c7,
    s8, List.filter_append, List.length_append, c8, c9]

theorem lexLt_cons (a b : Char) (as bs : List Char) :
    lexLt (a :: as) (b :: bs) = if a = b then lexLt as bs else decide (a < b) := rfl

theorem lexLt_irrefl (s : List Char) : lexLt s s = false := by
  induction s with
  | nil => rfl
  | cons x t ih =>
    rw [lexLt_cons, if_pos rfl]
    exact ih

/-- `'{:04d}'`-formatting is strictly monotone from numeric order to
lexicographic order below 10000. -/
theorem lexLt_format4 {n m : Nat} (h : n < m) (hm : m < 10000) :
    lexLt (format4 n) (format4 m) = true := by
  have hn : n < 10000 := lt_trans h hm
  have a3 : n / 1000 % 10 < 10 := Nat.mod_lt _ (by omega)
  have a2 : n / 100 % 10 < 10 := Nat.mod_lt _ (by omega)
  have a1 : n / 10 % 10 < 10 := Nat.mod_lt _ (by omega)
  have a0 : n % 10 < 10 := Nat.mod_lt _ (by omega)
  have b3 : m / 1000 % 10 < 10 := Nat.mod_lt _ (by omega)
  have b2 : m / 100 % 10 < 10 := Nat.mod_lt _ (by omega)
  have b1 : m / 10 % 10 < 10 := Nat.mod_lt _ (by omega)
  have b0 : m % 10 < 10 := Nat.mod_lt _ (by omega)
  unfold format4
  rcases Nat.lt_trichotomy (n / 1000 % 10) (m / 1000 % 10) with h3 | h3 | h3
  · rw [lexLt_cons, if_neg (fun he => absurd ((digitChar_inj a3 b3).mp he) (Nat.ne_of_lt h3))]
    exact decide_eq_true (digitChar_lt h3 b3)
  · rw [lexLt_cons, if_pos (by rw [h3])]
    rcases Nat.lt_trichotomy (n / 100 % 10) (m / 100 % 10) with h2 | h2 | h2
    · rw [lexLt_cons, if_neg (fun he => absurd ((digitChar_inj a2 b2).mp he) (Nat.ne_of_lt h2))]
      exact decide_eq_true (digitChar_lt h2 b2)
    · rw [lexLt_cons, if_pos (by rw [h2])]
      rcases Nat.lt_trichotomy (n / 10 % 10) (m / 10 % 10) with h1 | h1 | h1
      · rw [lexLt_cons, if_neg (fun he => absurd ((digitChar_inj a1 b1).mp he) (Nat.ne_of_lt h1))]
        exact decide_eq_true (digitChar_lt h1 b1)
      · rw [lexLt_cons, if_pos (by rw [h1])]
        rcases Nat.lt_trichotomy (n % 10) (m % 10) with h0 | h0 | h0
        · rw [lexLt_cons, if_neg (fun he => absurd ((digitChar_inj a0 b0).mp he) (Nat.ne_of_lt h0))]
          exact decide_eq_true (digitChar_lt h0 b0)
        · exfalso
          omega
        · exfalso
          omega
      · exfalso
        omega
    · exfalso
      omega
  · exfalso
    omega

/-- The candidate space is strictly ascending in lexicographic (equivalently,
numeric) order: the iteration order used by the minimax scan and its tie-break. -/
theorem numberList_pairwise :
    List.Pairwise (fun u v => lexLt u v = true) numberList := by
  unfold numberList
  apply List.Pairwise.filter
  rw [List.pairwise_map]
  apply List.Pairwise.imp_of_mem ?_ (List.pairwise_lt_range' 0 10000 1)
  intro a b _ hb hlt
  have hb' : b < 10000 := by
    obtain ⟨i, hi, rfl⟩ := List.mem_range'.mp hb
    omega
  exact lexLt_format4 hlt hb'

theorem numberList_nodup : numberList.Nodup := by
  have h := numberList_pairwise
  apply List.Pairwise.imp ?_ h
  intro a b hab heq
  rw [heq, lexLt_irrefl] at hab
  exact Bool.noConfusion hab

theorem mem_numberList_digits {s : List Char} (hs : s ∈ numberList) :
    ∀ c ∈ s, c.isDigit = true := by
  have hs' : s ∈ (List.range' 0 10000).map format4 := List.mem_of_mem_filter hs
  obtain ⟨n, -, rfl⟩ := List.mem_map.mp hs'
  intro c hc
  unfold format4 at hc
  simp only [List.mem_cons, List.not_mem_nil, or_false] at hc
  rcases hc with rfl | rfl | rfl | rfl
  · exact digitChar_isDigit (Nat.mod_lt _ (by omega))
  · exact digitChar_isDigit (Nat.mod_lt _ (by omega))
  · exact digitChar_isDigit (Nat.mod_lt _ (by omega))
  · exact digitChar_isDigit (Nat.mod_lt _ (by omega))

attribute [irreducible] numberList

/-- Filtering a duplicate-free list by a predicate that holds exactly at one of
its members yields the singleton of that member. -/
theorem filter_eq_singleton {l : List (List Char)} {p : List Char → Bool} {x : List Char}
    (hnd : l.Nodup) (hx : x ∈ l) (hp : ∀ k ∈ l, p k = true ↔ k = x) :
    l.filter p = [x] := by
  induction l with
  | nil => exact absurd hx (List.not_mem_nil x)
  | cons y t ih =>
    rw [List.nodup_cons] at hnd
    rcases List.mem_cons.mp hx with hxy | hxt
    · subst hxy
      rw [List.filter_cons, if_pos ((hp x (List.mem_cons_self x t)).mpr rfl)]
      have hnil : t.filter p = [] := by
        rw [List.filter_eq_nil_iff]
        intro a ha hpa
        have := (hp a (List.mem_cons_of_mem x ha)).mp hpa
        rw [this] at ha
        exact hnd.1 ha
      rw [hnil]
    · have hyx : y ≠ x := by
        intro he
        rw [he] at hnd
        exact hnd.1 hxt
      have hpy : ¬(p y = true) := fun hpy => hyx ((hp y (List.mem_cons_self y t)).mp hpy)
      rw [List.filter_cons, if_neg hpy]
      exact ih hnd.2 hxt (fun k hk => hp k (List.mem_cons_of_mem y hk))

/-! ## Branch characterisations of `guess` -/

theorem guess_none_eq (s : AIState) :
    guess s none = (⟨['0', '1', '2', '3'], [], numberList, s.tree⟩, ['0', '1', '2', '3']) := rfl

theorem guess_some_short (s : AIState) (res : List Char)
    (h1 : (filterRecord s.records s.previous (pyInt (res.getD 0 ' '))
      (pyInt (res.getD 2 ' '))).length = 1) :
    guess s (some res) =
      (⟨s.previous, s.log,
        filterRecord s.records s.previous (pyInt (res.getD 0 ' ')) (pyInt (res.getD 2 ' ')),
        s.tree⟩,
       (filterRecord s.records s.previous (pyInt (res.getD 0 ' '))
         (pyInt (res.getD 2 ' '))).headD []) := by
  simp only [guess]
  rw [if_pos h1]

theorem guess_some_hit (s : AIState) (res : List Char)
    (h1 : (filterRecord s.records s.previous (pyInt (res.getD 0 ' '))
      (pyInt (res.getD 2 ' '))).length ≠ 1)
    (h2 : searchTreeFn s.log s.tree (pyInt (res.getD 0 ' ')) (pyInt (res.getD 2 ' ')) ≠ []) :
    guess s (some res) =
      (⟨searchTreeFn s.log s.tree (pyInt (res.getD 0 ' ')) (pyInt (res.getD 2 ' ')),
        s.log ++ [(pyInt (res.getD 0 ' '), pyInt (res.getD 2 ' '))],
        filterRecord s.records s.previous (pyInt (res.getD 0 ' ')) (pyInt (res.getD 2 ' ')),
        s.tree⟩,
       searchTreeFn s.log s.tree (pyInt (res.getD 0 ' ')) (pyInt (res.getD 2 ' '))) := by
  simp only [guess]
  rw [if_neg h1, if_pos h2]

theorem guess_some_miss (s : AIState) (res : List Char)
    (h1 : (filterRecord s.records s.previous (pyInt (res.getD 0 ' '))
      (pyInt (res.getD 2 ' '))).length ≠ 1)
    (h2 : searchTreeFn s.log s.tree (pyInt (res.getD 0 ' ')) (pyInt (res.getD 2 ' ')) = []) :
    guess s (some res) =
      (⟨(selectCandidate (filterRecord s.records s.previous (pyInt (res.getD 0 ' '))
           (pyInt (res.getD 2 ' ')))).1,
        s.log ++ [(pyInt (res.getD 0 ' '), pyInt (res.getD 2 ' '))],
        filterRecord s.records s.previous (pyInt (res.getD 0 ' ')) (pyInt (res.getD 2 ' ')),
        updateTreeFn s.log s.tree
          (selectCandidate (filterRecord s.records s.previous (pyInt (res.getD 0 ' '))
            (pyInt (res.getD 2 ' ')))).1
          (pyInt (res.getD 0 ' ')) (pyInt (res.getD 2 ' '))⟩,
       (selectCandidate (filterRecord s.records s.previous (pyInt (res.getD 0 ' '))
         (pyInt (res.getD 2 ' ')))).1) := by
  simp only [guess]
  rw [if_neg h1, if_neg (by rw [h2]; exact fun hc => hc rfl)]

/-! ## Kernel-safe projection helpers -/

theorem pairSnd (a : AIState) (b : List Char) : ((a, b) : AIState × List Char).2 = b := rfl

theorem pairFst (a : AIState) (b : List Char) : ((a, b) : AIState × List Char).1 = a := rfl

theorem walkLog_skip (k : Nat × Nat) (r : List Char) (ch : List (Option GTree))
    (rest : List (Nat × Nat)) (habs : ch.getD (k.1 * 5 + k.2) none = none) :
    walkLog (k :: rest) (GTree.node r ch) = walkLog rest (GTree.node r ch) := by
  rw [walkLog, habs]

theorem walkLog_follow (k : Nat × Nat) (r : List Char) (ch : List (Option GTree))
    (rest : List (Nat × Nat)) (t' : GTree) (hch : ch.getD (k.1 * 5 + k.2) none = some t') :
    walkLog (k :: rest) (GTree.node r ch) = walkLog rest t' := by
  rw [walkLog, hch]

/-! ## Claims -/

/-- Claim C4: for every record set, previous guess and feedback pair `(a, b)`,
`_filter_record` keeps exactly the records whose scorer outcome against the
previous guess is `(a, b)`: the record set never grows, and any member
consistent with the feedback (membership in the right-hand side) is never
removed. -/
theorem claimC4 (records : List (List Char)) (previous key : List Char) (a b : Nat) :
    (filterRecord records previous a b).length ≤ records.length ∧
      (key ∈ filterRecord records previous a b ↔
        key ∈ records ∧ scorePair key previous = (a, b)) :=
  ⟨filterRecord_length_le records previous a b, mem_filterRecord records previous key a b⟩

/-- Claim C5: for valid digit strings `x` and `y`, the scorer counts `(A, B)`
(the loop of `GuessNumberChecker.answer`, whose formatted output is `answer`)
satisfy `A + B ≤ 4`; `A = 4` forces `x = y`; and `score(x, x) = (4, 0)`. -/
theorem claimC5 (x y : List Char) (hx : isValidAnswer x = true) (hy : isValidAnswer y = true) :
    (scorePair x y).1 + (scorePair x y).2 ≤ 4 ∧
      ((scorePair x y).1 = 4 → x = y) ∧
      scorePair x x = (4, 0) ∧
      answer y x = [Nat.digitChar (scorePair x y).1, 'A', Nat.digitChar (scorePair x y).2, 'B'] :=
  ⟨scorePair_sum_le x y,
   fun h => scorePair_fst_eq_four (isValidAnswer_length hx) (isValidAnswer_length hy) h,
   scorePair_self x,
   rfl⟩

/-- Witness for claim C5 at `x = "0123"`, `y = "4567"`. -/
theorem claimC5_witness :
    isValidAnswer ['0', '1', '2', '3'] = true ∧ isValidAnswer ['4', '5', '6', '7'] = true ∧
      ((scorePair ['0', '1', '2', '3'] ['4', '5', '6', '7']).1 +
        (scorePair ['0', '1', '2', '3'] ['4', '5', '6', '7']).2 ≤ 4 ∧
       ((scorePair ['0', '1', '2', '3'] ['4', '5', '6', '7']).1 = 4 →
         ['0', '1', '2', '3'] = ['4', '5', '6', '7']) ∧
       scorePair ['0', '1', '2', '3'] ['0', '1', '2', '3'] = (4, 0) ∧
       answer ['4', '5', '6', '7'] ['0', '1', '2', '3'] =
         [Nat.digitChar (scorePair ['0', '1', '2', '3'] ['4', '5', '6', '7']).1, 'A',
          Nat.digitChar (scorePair ['0', '1', '2', '3'] ['4', '5', '6', '7']).2, 'B']) :=
  ⟨by decide, by decide, claimC5 ['0', '1', '2', '3'] ['4', '5', '6', '7'] (by decide) (by decide)⟩

/-- Claim C7: the candidate space has exactly 5,040 members; every member is a
4-character duplicate-free digit string accepted by the validity predicate; and
the iteration order used by the minimax scan is strictly ascending. -/
theorem claimC7 :
    numberList.length = 5040 ∧
      (∀ s ∈ numberList, s.length = 4 ∧ s.Nodup ∧ (∀ c ∈ s, c.isDigit = true) ∧
        isValidAnswer s = true) ∧
      List.Pairwise (fun u v => lexLt u v = true) numberList := by
  refine ⟨numberList_length, ?_, numberList_pairwise⟩
  intro s hs
  have hv := mem_numberList_valid hs
  obtain ⟨h4, -, hnd⟩ := (isValidAnswer_iff s).mp hv
  exact ⟨h4, hnd, mem_numberList_digits hs, hv⟩

/-- Claim C9: `initialize` resets exactly the per-game state (the record set
becomes the full candidate space, the history log becomes empty, the stored
previous guess is cleared) and leaves the decision tree untouched, so cached
guesses persist across games. -/
theorem claimC9 (s : AIState) :
    (initializeEngine s).records = numberList ∧ (initializeEngine s).log = [] ∧
      (initializeEngine s).previous = [] ∧ (initializeEngine s).tree = s.tree :=
  ⟨rfl, rfl, rfl, rfl⟩

/-- Claim C10: when filtering leaves exactly one record, `guess` returns that
record at once: the history log is not extended, the stored previous guess is
not updated, and the decision tree is untouched — only the record set changes.
A subsequent call therefore filters against the stale previous guess and an
unextended history. -/
theorem claimC10 (s : AIState) (res : List Char)
    (h1 : (filterRecord s.records s.previous (pyInt (res.getD 0 ' '))
      (pyInt (res.getD 2 ' '))).length = 1) :
    guess s (some res) =
      (⟨s.previous, s.log,
        filterRecord s.records s.previous (pyInt (res.getD 0 ' ')) (pyInt (res.getD 2 ' ')),
        s.tree⟩,
       (filterRecord s.records s.previous (pyInt (res.getD 0 ' '))
         (pyInt (res.getD 2 ' '))).headD []) ∧
      (guess s (some res)).2 ∈
        filterRecord s.records s.previous (pyInt (res.getD 0 ' ')) (pyInt (res.getD 2 ' ')) := by
  have he := guess_some_short s res h1
  refine ⟨he, ?_⟩
  rw [he]
  exact headD_mem _ _ (by intro hc; rw [hc] at h1; exact absurd h1 (by decide))

/-- Witness for claim C10: the state after the opening guess `"0123"` has been
answered `'4A0B'` in spirit — record set `{"0123"}`, previous guess `"0123"` —
fed the feedback `'4A0B'`. -/
theorem claimC10_witness :
    (filterRecord [['0', '1', '2', '3']] ['0', '1', '2', '3']
      (pyInt ((['4', 'A', '0', 'B'] : List Char).getD 0 ' '))
      (pyInt ((['4', 'A', '0', 'B'] : List Char).getD 2 ' '))).length = 1 ∧
    (guess ⟨['0', '1', '2', '3'], [], [['0', '1', '2', '3']], mkTree⟩ (some ['4', 'A', '0', 'B']) =
      (⟨['0', '1', '2', '3'], [],
        filterRecord [['0', '1', '2', '3']] ['0', '1', '2', '3']
          (pyInt ((['4', 'A', '0', 'B'] : List Char).getD 0 ' '))
          (pyInt ((['4', 'A', '0', 'B'] : List Char).getD 2 ' ')), mkTree⟩,
       (filterRecord [['0', '1', '2', '3']] ['0', '1', '2', '3']
         (pyInt ((['4', 'A', '0', 'B'] : List Char).getD 0 ' '))
         (pyInt ((['4', 'A', '0', 'B'] : List Char).getD 2 ' '))).headD []) ∧
     (guess ⟨['0', '1', '2', '3'], [], [['0', '1', '2', '3']], mkTree⟩
       (some ['4', 'A', '0', 'B'])).2 ∈
       filterRecord [['0', '1', '2', '3']] ['0', '1', '2', '3']
         (pyInt ((['4', 'A', '0', 'B'] : List Char).getD 0 ' '))
         (pyInt ((['4', 'A', '0', 'B'] : List Char).getD 2 ' '))) :=
  ⟨by decide,
   claimC10 ⟨['0', '1', '2', '3'], [], [['0', '1', '2', '3']], mkTree⟩ ['4', 'A', '0', 'B']
     (by decide)⟩

/-- Claim C8 counterexample: `"¼½²³"` (four distinct Unicode numeric characters,
none of them an ASCII digit `'0'`-`'9'`) is accepted by `is_valid_answer`
because Python's `str.isnumeric` accepts all Unicode numerics, so the claimed
equivalence with "every character is a digit `'0'`-`'9'`" fails. -/
theorem claimC8_counterexample :
    isValidAnswer ['¼', '½', '²', '³'] = true ∧
      ¬(isValidAnswer ['¼', '½', '²', '³'] = true ↔
        (['¼', '½', '²', '³'] : List Char).length = 4 ∧
          (∀ c ∈ (['¼', '½', '²', '³'] : List Char), c.isDigit = true) ∧
          (['¼', '½', '²', '³'] : List Char).Nodup) := by
  constructor
  · decide
  · decide

theorem pyIsNumeric_ascii {c : Char} (h : c.toNat < 128) : pyIsNumeric c = c.isDigit := by
  have h1 : ¬(c = '¼') := fun he => absurd h (by rw [he]; decide)
  have h2 : ¬(c = '½') := fun he => absurd h (by rw [he]; decide)
  have h3 : ¬(c = '²') := fun he => absurd h (by rw [he]; decide)
  have h4 : ¬(c = '³') := fun he => absurd h (by rw [he]; decide)
  unfold pyIsNumeric
  rw [decide_eq_false h1, decide_eq_false h2, decide_eq_false h3, decide_eq_false h4]
  simp

/-- Claim C8, amended: on strings of ASCII characters the validity predicate
returns true iff the string has length 4, every character is a digit
`'0'`-`'9'`, and no character repeats.  (On arbitrary strings the middle
condition is instead Python's `str.isnumeric`, which also accepts non-ASCII
Unicode numeric characters — see the counterexample.) -/
theorem claimC8 (s : List Char) (hascii : ∀ c ∈ s, c.toNat < 128) :
    isValidAnswer s = true ↔
      s.length = 4 ∧ (∀ c ∈ s, c.isDigit = true) ∧ s.Nodup := by
  rw [isValidAnswer_iff]
  constructor
  · rintro ⟨h4, hnum, hnd⟩
    exact ⟨h4, fun c hc => (pyIsNumeric_ascii (hascii c hc)) ▸ hnum c hc, hnd⟩
  · rintro ⟨h4, hdig, hnd⟩
    exact ⟨h4, fun c hc => (pyIsNumeric_ascii (hascii c hc)).symm ▸ hdig c hc, hnd⟩

/-- Witness for the amended claim C8 at the ASCII string `"0123"`. -/
theorem claimC8_witness :
    (∀ c ∈ (['0', '1', '2', '3'] : List Char), c.toNat < 128) ∧
      (isValidAnswer ['0', '1', '2', '3'] = true ↔
        (['0', '1', '2', '3'] : List Char).length = 4 ∧
          (∀ c ∈ (['0', '1', '2', '3'] : List Char), c.isDigit = true) ∧
          (['0', '1', '2', '3'] : List Char).Nodup) :=
  ⟨by decide, claimC8 ['0', '1', '2', '3'] (by decide)⟩

/-- Claim C1: on a decision-cache miss with at least two surviving records, the
guess returned is the candidate-space string (scanned in ascending order) that
minimises the size of the largest of the 25 buckets obtained by partitioning
the record set by the scorer outcome against each record; ties keep the first
(smallest) such string: every earlier candidate scores strictly worse. -/
theorem claimC1 (s : AIState) (res : List Char)
    (hrec : s.records.length ≤ 5040)
    (h2 : 2 ≤ (filterRecord s.records s.previous (pyInt (res.getD 0 ' '))
      (pyInt (res.getD 2 ' '))).length)
    (hmiss : searchTreeFn s.log s.tree (pyInt (res.getD 0 ' ')) (pyInt (res.getD 2 ' ')) = []) :
    ∃ pre post,
      numberList = pre ++ (guess s (some res)).2 :: post ∧
      (∀ k ∈ numberList,
        specScore (filterRecord s.records s.previous (pyInt (res.getD 0 ' '))
            (pyInt (res.getD 2 ' '))) (guess s (some res)).2 ≤
          specScore (filterRecord s.records s.previous (pyInt (res.getD 0 ' '))
            (pyInt (res.getD 2 ' '))) k) ∧
      (∀ j ∈ pre,
        specScore (filterRecord s.records s.previous (pyInt (res.getD 0 ' '))
            (pyInt (res.getD 2 ' '))) (guess s (some res)).2 <
          specScore (filterRecord s.records s.previous (pyInt (res.getD 0 ' '))
            (pyInt (res.getD 2 ' '))) j) := by
  have hg : (guess s (some res)).2 =
      (selectCandidate (filterRecord s.records s.previous (pyInt (res.getD 0 ' '))
        (pyInt (res.getD 2 ' ')))).1 :=
    (congrArg Prod.snd (guess_some_miss s res (by omega) hmiss)).trans (pairSnd _ _)
  have hR : (filterRecord s.records s.previous (pyInt (res.getD 0 ' '))
      (pyInt (res.getD 2 ' '))).length ≤ 5040 :=
    le_trans (filterRecord_length_le _ _ _ _) hrec
  obtain ⟨pre, post, hsplit, hpre, hall⟩ :=
    selectCandidate_spec (filterRecord s.records s.previous (pyInt (res.getD 0 ' '))
      (pyInt (res.getD 2 ' '))) hR
  refine ⟨pre, post, ?_, ?_, ?_⟩
  · rw [hg]
    exact hsplit
  · intro k hk
    rw [hg, ← calculateScore_eq_specScore, ← calculateScore_eq_specScore]
    exact hall k hk
  · intro j hj
    rw [hg, ← calculateScore_eq_specScore, ← calculateScore_eq_specScore]
    exact hpre j hj

/-- Witness for claim C1: a mid-game state with three surviving records
`{"4567", "4568", "4569"}` after previous guess `"0123"`, fed feedback `'0A0B'`
against an unpopulated decision tree. -/
theorem claimC1_witness :
    ([['4', '5', '6', '7'], ['4', '5', '6', '8'], ['4', '5', '6', '9']] :
      List (List Char)).length ≤ 5040 ∧
    2 ≤ (filterRecord [['4', '5', '6', '7'], ['4', '5', '6', '8'], ['4', '5', '6', '9']]
      ['0', '1', '2', '3']
      (pyInt ((['0', 'A', '0', 'B'] : List Char).getD 0 ' '))
      (pyInt ((['0', 'A', '0', 'B'] : List Char).getD 2 ' '))).length ∧
    searchTreeFn [] mkTree
      (pyInt ((['0', 'A', '0', 'B'] : List Char).getD 0 ' '))
      (pyInt ((['0', 'A', '0', 'B'] : List Char).getD 2 ' ')) = [] ∧
    (∃ pre post,
      numberList = pre ++
        (guess ⟨['0', '1', '2', '3'], [],
          [['4', '5', '6', '7'], ['4', '5', '6', '8'], ['4', '5', '6', '9']], mkTree⟩
          (some ['0', 'A', '0', 'B'])).2 :: post ∧
      (∀ k ∈ numberList,
        specScore (filterRecord
            [['4', '5', '6', '7'], ['4', '5', '6', '8'], ['4', '5', '6', '9']]
            ['0', '1', '2', '3']
            (pyInt ((['0', 'A', '0', 'B'] : List Char).getD 0 ' '))
            (pyInt ((['0', 'A', '0', 'B'] : List Char).getD 2 ' ')))
          (guess ⟨['0', '1', '2', '3'], [],
            [['4', '5', '6', '7'], ['4', '5', '6', '8'], ['4', '5', '6', '9']], mkTree⟩
            (some ['0', 'A', '0', 'B'])).2 ≤
        specScore (filterRecord
            [['4', '5', '6', '7'], ['4', '5', '6', '8'], ['4', '5', '6', '9']]
            ['0', '1', '2', '3']
            (pyInt ((['0', 'A', '0', 'B'] : List Char).getD 0 ' '))
            (pyInt ((['0', 'A', '0', 'B'] : List Char).getD 2 ' '))) k) ∧
      (∀ j ∈ pre,
        specScore (filterRecord
            [['4', '5', '6', '7'], ['4', '5', '6', '8'], ['4', '5', '6', '9']]
            ['0', '1', '2', '3']
            (pyInt ((['0', 'A', '0', 'B'] : List Char).getD 0 ' '))
            (pyInt ((['0', 'A', '0', 'B'] : List Char).getD 2 ' ')))
          (guess ⟨['0', '1', '2', '3'], [],
            [['4', '5', '6', '7'], ['4', '5', '6', '8'], ['4', '5', '6', '9']], mkTree⟩
            (some ['0', 'A', '0', 'B'])).2 <
        specScore (filterRecord
            [['4', '5', '6', '7'], ['4', '5', '6', '8'], ['4', '5', '6', '9']]
            ['0', '1', '2', '3']
            (pyInt ((['0', 'A', '0', 'B'] : List Char).getD 0 ' '))
            (pyInt ((['0', 'A', '0', 'B'] : List Char).getD 2 ' '))) j)) :=
  ⟨by decide, by decide, by decide,
   claimC1 ⟨['0', '1', '2', '3'], [],
     [['4', '5', '6', '7'], ['4', '5', '6', '8'], ['4', '5', '6', '9']], mkTree⟩
     ['0', 'A', '0', 'B'] (by decide) (by decide) (by decide)⟩

/-- Claim C3 counterexample: a decision tree populated (via `_update_tree`) with
the path `(0,1) → (0,2)` and a history `[(3,1), (0,1)]` whose *first* entry has
no child at the root.  The claimed behaviour is a cache miss at depth 0; the
code instead skips the absent edge, walks the remaining history from the root,
and returns the cached guess `"8901"`. -/
theorem claimC3_counterexample :
    (updateTreeFn [(0, 1)]
        (updateTreeFn [] mkTree ['4', '5', '6', '7'] 0 1) ['8', '9', '0', '1'] 0 2).child
      (3 * 5 + 1) = none ∧
    searchTreeFn [(3, 1), (0, 1)]
        (updateTreeFn [(0, 1)]
          (updateTreeFn [] mkTree ['4', '5', '6', '7'] 0 1) ['8', '9', '0', '1'] 0 2) 0 2 =
      ['8', '9', '0', '1'] ∧
    (['8', '9', '0', '1'] : List Char) ≠ [] := by
  refine ⟨rfl, rfl, by decide⟩

/-- Claim C3, amended: the lookup walk of `_search_tree` *skips* a history entry
whose child edge is absent — it continues from the current node with the
remaining history entries instead of returning a miss at that depth — and
follows the edge when it is present; a miss is reported only if the node the
walk finally reaches has no child for the looked-up feedback pair. -/
theorem claimC3 (r : List Char) (ch : List (Option GTree)) (k : Nat × Nat)
    (rest : List (Nat × Nat)) (a b : Nat)
    (habs : ch.getD (k.1 * 5 + k.2) none = none) :
    searchTreeFn (k :: rest) (GTree.node r ch) a b =
      searchTreeFn rest (GTree.node r ch) a b ∧
    (∀ k' (rest' : List (Nat × Nat)) (t' : GTree),
      ch.getD (k'.1 * 5 + k'.2) none = some t' →
      searchTreeFn (k' :: rest') (GTree.node r ch) a b = searchTreeFn rest' t' a b) := by
  constructor
  · unfold searchTreeFn
    rw [walkLog_skip k r ch rest habs]
  · intro k' rest' t' hsome
    unfold searchTreeFn
    rw [walkLog_follow k' r ch rest' t' hsome]

/-- Witness for the amended claim C3: the fresh root and history entry `(3,1)`. -/
theorem claimC3_witness :
    (List.replicate 25 (none : Option GTree)).getD (((3, 1) : Nat × Nat).1 * 5 +
      ((3, 1) : Nat × Nat).2) none = none ∧
    (searchTreeFn [(3, 1)] (GTree.node ['0', '1', '2', '3'] (List.replicate 25 none)) 0 2 =
        searchTreeFn [] (GTree.node ['0', '1', '2', '3'] (List.replicate 25 none)) 0 2 ∧
      (∀ k' (rest' : List (Nat × Nat)) (t' : GTree),
        (List.replicate 25 (none : Option GTree)).getD (k'.1 * 5 + k'.2) none = some t' →
        searchTreeFn (k' :: rest')
            (GTree.node ['0', '1', '2', '3'] (List.replicate 25 none)) 0 2 =
          searchTreeFn rest' t' 0 2)) :=
  ⟨rfl,
   claimC3 ['0', '1', '2', '3'] (List.replicate 25 none) (3, 1) [] 0 2 rfl⟩

/-! ## The contradiction scenario (claim C2) -/

theorem calculateScore_nil (k : List Char) : calculateScore [] k = 0 := rfl

theorem foldl_min_stay (f : List Char → Nat) (hf : ∀ k, f k = 0) (l : List (List Char))
    (g0 : List Char) :
    l.foldl (fun c k => if f k < c.2 then (k, f k) else c) (g0, 0) = (g0, 0) := by
  induction l with
  | nil => rfl
  | cons x t ih =>
    rw [List.foldl_cons, if_neg (by rw [hf x]; omega)]
    exact ih

theorem numberList_head : numberList.head numberList_ne_nil = ['0', '1', '2', '3'] := by
  have h := List.head_cons_tail numberList numberList_ne_nil
  have h2 := numberList_headD
  rw [← h] at h2
  exact h2

/-- On an empty record set every candidate scores 0, so the minimax scan keeps
its very first iterate, the opening string `"0123"`. -/
theorem selectCandidate_nil : selectCandidate [] = (['0', '1', '2', '3'], 0) := by
  unfold selectCandidate
  rw [← List.head_cons_tail numberList numberList_ne_nil, numberList_head, List.foldl_cons,
    if_pos (by rw [calculateScore_nil]; omega), calculateScore_nil]
  exact foldl_min_stay (fun k => calculateScore [] k) calculateScore_nil _ _

theorem filterRecord_40 :
    filterRecord numberList ['0', '1', '2', '3'] 4 0 = [['0', '1', '2', '3']] := by
  unfold filterRecord
  apply filter_eq_singleton numberList_nodup c0123_mem_numberList
  intro k hk
  rw [checkResult_iff]
  constructor
  · intro hsp
    exact scorePair_fst_eq_four (mem_numberList_length hk) (by decide) (by rw [hsp])
  · rintro rfl
    exact scorePair_self _

/-- Claim C2, amended: the engine does *not* surface a distinct failure when the
feedback history becomes contradictory.  Whenever filtering empties the record
set, `guess` neither crashes nor reports an error: on a decision-cache miss it
silently returns the first candidate-space string `"0123"` (every candidate's
largest bucket over the empty record set is 0, so the scan keeps its first
iterate), an ordinary member of the candidate space; on a decision-cache hit it
silently returns the cached guess, which is non-empty.  Either way the caller
receives an ordinary guess indistinguishable from a normal one. -/
theorem claimC2 (s : AIState) (res : List Char)
    (hempty : filterRecord s.records s.previous (pyInt (res.getD 0 ' '))
      (pyInt (res.getD 2 ' ')) = []) :
    (searchTreeFn s.log s.tree (pyInt (res.getD 0 ' ')) (pyInt (res.getD 2 ' ')) = [] →
      (guess s (some res)).2 = ['0', '1', '2', '3'] ∧ (guess s (some res)).2 ∈ numberList) ∧
    (searchTreeFn s.log s.tree (pyInt (res.getD 0 ' ')) (pyInt (res.getD 2 ' ')) ≠ [] →
      (guess s (some res)).2
          = searchTreeFn s.log s.tree (pyInt (res.getD 0 ' ')) (pyInt (res.getD 2 ' ')) ∧
        (guess s (some res)).2 ≠ []) := by
  have h1 : (filterRecord s.records s.previous (pyInt (res.getD 0 ' '))
      (pyInt (res.getD 2 ' '))).length ≠ 1 := by
    rw [hempty]
    decide
  constructor
  · intro hmiss
    rw [guess_some_miss s res h1 hmiss, hempty, selectCandidate_nil]
    exact ⟨rfl, c0123_mem_numberList⟩
  · intro hhit
    rw [guess_some_hit s res h1 hhit]
    exact ⟨rfl, hhit⟩

/-- Witness for the amended claim C2, exercising both arms.  Miss arm: the
reachable state after the session `guess(None) = "0123"`, feedback `'4A0B'`
(record set `{"0123"}`), fed the contradictory feedback `'0A0B'` against a
fresh tree.  Hit arm: the same fields but with the root child `(0, 1)`
populated (by the code's own `_update_tree`) with `"4567"`, fed the
contradictory feedback `'0A1B'`. -/
theorem claimC2_witness :
    (filterRecord [['0', '1', '2', '3']] ['0', '1', '2', '3']
        (pyInt ((['0', 'A', '0', 'B'] : List Char).getD 0 ' '))
        (pyInt ((['0', 'A', '0', 'B'] : List Char).getD 2 ' ')) = [] ∧
      searchTreeFn [] mkTree
        (pyInt ((['0', 'A', '0', 'B'] : List Char).getD 0 ' '))
        (pyInt ((['0', 'A', '0', 'B'] : List Char).getD 2 ' ')) = [] ∧
      ((guess ⟨['0', '1', '2', '3'], [], [['0', '1', '2', '3']], mkTree⟩
          (some ['0', 'A', '0', 'B'])).2 = ['0', '1', '2', '3'] ∧
        (guess ⟨['0', '1', '2', '3'], [], [['0', '1', '2', '3']], mkTree⟩
          (some ['0', 'A', '0', 'B'])).2 ∈ numberList)) ∧
    (filterRecord [['0', '1', '2', '3']] ['0', '1', '2', '3']
        (pyInt ((['0', 'A', '1', 'B'] : List Char).getD 0 ' '))
        (pyInt ((['0', 'A', '1', 'B'] : List Char).getD 2 ' ')) = [] ∧
      searchTreeFn [] (updateTreeFn [] mkTree ['4', '5', '6', '7'] 0 1)
        (pyInt ((['0', 'A', '1', 'B'] : List Char).getD 0 ' '))
        (pyInt ((['0', 'A', '1', 'B'] : List Char).getD 2 ' ')) ≠ [] ∧
      ((guess ⟨['0', '1', '2', '3'], [],
            [['0', '1', '2', '3']], updateTreeFn [] mkTree ['4', '5', '6', '7'] 0 1⟩
          (some ['0', 'A', '1', 'B'])).2
          = searchTreeFn [] (updateTreeFn [] mkTree ['4', '5', '6', '7'] 0 1)
            (pyInt ((['0', 'A', '1', 'B'] : List Char).getD 0 ' '))
            (pyInt ((['0', 'A', '1', 'B'] : List Char).getD 2 ' ')) ∧
        (guess ⟨['0', '1', '2', '3'], [],
            [['0', '1', '2', '3']], updateTreeFn [] mkTree ['4', '5', '6', '7'] 0 1⟩
          (some ['0', 'A', '1', 'B'])).2 ≠ [])) :=
  ⟨⟨by decide, by decide,
    (claimC2 ⟨['0', '1', '2', '3'], [], [['0', '1', '2', '3']], mkTree⟩
      ['0', 'A', '0', 'B'] (by decide)).1 (by decide)⟩,
   ⟨by decide, by decide,
    (claimC2 ⟨['0', '1', '2', '3'], [],
        [['0', '1', '2', '3']], updateTreeFn [] mkTree ['4', '5', '6', '7'] 0 1⟩
      ['0', 'A', '1', 'B'] (by decide)).2 (by decide)⟩⟩

/-- Claim C2 counterexample: the genuine session `guess(None)`, feedback
`'4A0B'`, feedback `'0A0B'` — a feedback sequence inconsistent with every
candidate — drives the record set to empty, yet `guess` neither fails nor
crashes: it returns the candidate-space member `"0123"` exactly as if it were a
normal guess.  (In the embedding `guess` is a total function into ordinary
guesses; the program has no error channel, and the only conceivable sentinel,
the empty string `''`, is not returned.) -/
theorem claimC2_counterexample :
    (guess (guess (guess mkAI none).1 (some ['4', 'A', '0', 'B'])).1
      (some ['0', 'A', '0', 'B'])).1.records = [] ∧
    (guess (guess (guess mkAI none).1 (some ['4', 'A', '0', 'B'])).1
      (some ['0', 'A', '0', 'B'])).2 = ['0', '1', '2', '3'] ∧
    (guess (guess (guess mkAI none).1 (some ['4', 'A', '0', 'B'])).1
      (some ['0', 'A', '0', 'B'])).2 ∈ numberList ∧
    (guess (guess (guess mkAI none).1 (some ['4', 'A', '0', 'B'])).1
      (some ['0', 'A', '0', 'B'])).2 ≠ [] := by
  have e1 : (guess mkAI none).1 = ⟨['0', '1', '2', '3'], [], numberList, mkTree⟩ := rfl
  have hp4 : pyInt ((['4', 'A', '0', 'B'] : List Char).getD 0 ' ') = 4 := rfl
  have hp0 : pyInt ((['4', 'A', '0', 'B'] : List Char).getD 2 ' ') = 0 := rfl
  have h1 : (filterRecord numberList ['0', '1', '2', '3']
      (pyInt ((['4', 'A', '0', 'B'] : List Char).getD 0 ' '))
      (pyInt ((['4', 'A', '0', 'B'] : List Char).getD 2 ' '))).length = 1 := by
    rw [hp4, hp0, filterRecord_40]
    rfl
  have e2 : (guess ⟨['0', '1', '2', '3'], [], numberList, mkTree⟩
      (some ['4', 'A', '0', 'B'])).1 = ⟨['0', '1', '2', '3'], [], [['0', '1', '2', '3']], mkTree⟩ := by
    rw [guess_some_short ⟨['0', '1', '2', '3'], [], numberList, mkTree⟩ ['4', 'A', '0', 'B'] h1]
    rw [hp4, hp0, filterRecord_40]
  rw [e1, e2]
  have hempty : filterRecord [['0', '1', '2', '3']] ['0', '1', '2', '3']
      (pyInt ((['0', 'A', '0', 'B'] : List Char).getD 0 ' '))
      (pyInt ((['0', 'A', '0', 'B'] : List Char).getD 2 ' ')) = [] := by decide
  have hmiss : searchTreeFn [] mkTree
      (pyInt ((['0', 'A', '0', 'B'] : List Char).getD 0 ' '))
      (pyInt ((['0', 'A', '0', 'B'] : List Char).getD 2 ' ')) = [] := by decide
  have e3 := guess_some_miss ⟨['0', '1', '2', '3'], [], [['0', '1', '2', '3']], mkTree⟩
    ['0', 'A', '0', 'B'] (by rw [hempty]; decide) hmiss
  rw [e3, hempty, selectCandidate_nil]
  exact ⟨rfl, rfl, c0123_mem_numberList, by decide⟩

/-! ## Tree paths: `getNode`, `PathOk`, `TreeExt` -/

theorem getD_some_lt {α : Type} {l : List (Option α)} {i : Nat} {x : α}
    (h : l.getD i none = some x) : i < l.length := by
  by_contra hge
  rw [List.getD_eq_default _ _ (by omega)] at h
  exact Option.noConfusion h

theorem getD_replicate_none {α : Type} (m j : Nat) :
    (List.replicate m (none : Option α)).getD j none = none := by
  by_cases hj : j < m
  · rw [List.getD_eq_getElem _ _ (by simpa using hj)]
    exact List.getElem_replicate ..
  · rw [List.getD_eq_default _ _ (by simpa using hj)]

theorem getNode_cons (i : Nat) (p : List Nat) (t : GTree) :
    getNode (i :: p) t =
      match t.child i with
      | none => none
      | some t' => getNode p t' := rfl

theorem getNode_append (p q : List Nat) (t : GTree) :
    getNode (p ++ q) t = (getNode p t).bind (getNode q) := by
  induction p generalizing t with
  | nil => rfl
  | cons i p' ih =>
    rw [List.cons_append, getNode_cons, getNode_cons]
    cases hc : t.child i with
    | none => rfl
    | some t' => exact ih t'

theorem idxPath_append (l1 l2 : List (Nat × Nat)) :
    idxPath (l1 ++ l2) = idxPath l1 ++ idxPath l2 :=
  List.map_append _ l1 l2

theorem pathOk_nil (t : GTree) : PathOk [] t := by
  intro p q hpq
  have hp : p = [] := (List.append_eq_nil.mp hpq).1
  rw [hp]
  rfl

theorem pathOk_cons {k : Nat × Nat} {rest : List (Nat × Nat)} {t : GTree}
    (h : PathOk (k :: rest) t) :
    ∃ t', t.child (k.1 * 5 + k.2) = some t' ∧ PathOk rest t' := by
  have h1 := h [k.1 * 5 + k.2] (idxPath rest) rfl
  rw [getNode_cons] at h1
  cases hc : t.child (k.1 * 5 + k.2) with
  | none =>
    rw [hc] at h1
    exact absurd h1 (by decide)
  | some t' =>
    refine ⟨t', rfl, ?_⟩
    intro p q hpq
    have h2 := h ((k.1 * 5 + k.2) :: p) q (by rw [List.cons_append, hpq]; rfl)
    rw [getNode_cons, hc] at h2
    exact h2

theorem treeExt_refl (t : GTree) : TreeExt t t :=
  fun _ n1 h => ⟨n1, h, rfl⟩

theorem treeExt_trans {t1 t2 t3 : GTree} (h12 : TreeExt t1 t2) (h23 : TreeExt t2 t3) :
    TreeExt t1 t3 := by
  intro p n1 h1
  obtain ⟨n2, h2, hr2⟩ := h12 p n1 h1
  obtain ⟨n3, h3, hr3⟩ := h23 p n2 h2
  exact ⟨n3, h3, hr3.trans hr2⟩

theorem pathOk_mono {t1 t2 : GTree} {log : List (Nat × Nat)} (hext : TreeExt t1 t2)
    (h : PathOk log t1) : PathOk log t2 := by
  intro p q hpq
  have h1 := h p q hpq
  cases hc : getNode p t1 with
  | none => rw [hc] at h1; exact absurd h1 (by decide)
  | some n1 =>
    obtain ⟨n2, h2, -⟩ := hext p n1 hc
    rw [h2]
    rfl

/-- Under `PathOk`, the skipping walk of `_search_tree` / `_update_tree` follows
the history path exactly: it reaches the node addressed by the path of child
indexes. -/
theorem walkLog_eq_getNode {log : List (Nat × Nat)} {t : GTree} (h : PathOk log t) :
    getNode (idxPath log) t = some (walkLog log t) := by
  induction log generalizing t with
  | nil => rfl
  | cons k rest ih =>
    obtain ⟨r, ch, rfl⟩ : ∃ r ch, t = GTree.node r ch := by
      cases t with
      | node r ch => exact ⟨r, ch, rfl⟩
    obtain ⟨t', hc, hrest⟩ := pathOk_cons h
    have hc' : ch.getD (k.1 * 5 + k.2) none = some t' := hc
    have hwalk := walkLog_follow k r ch rest t' hc'
    rw [hwalk]
    show getNode ((k.1 * 5 + k.2) :: idxPath rest) (GTree.node r ch) = _
    rw [getNode_cons]
    show (match ch.getD (k.1 * 5 + k.2) none with
      | none => none
      | some t' => getNode (idxPath rest) t') = _
    rw [hc']
    exact ih hrest

theorem searchTree_of_getNode_some {log : List (Nat × Nat)} {t : GTree} {a b : Nat}
    {n : GTree} (h : PathOk log t)
    (hn : getNode (idxPath log ++ [a * 5 + b]) t = some n) :
    searchTreeFn log t a b = GTree.record n := by
  rw [getNode_append, walkLog_eq_getNode h] at hn
  have hn' : getNode [a * 5 + b] (walkLog log t) = some n := hn
  rw [getNode_cons] at hn'
  unfold searchTreeFn
  cases hc : (walkLog log t).child (a * 5 + b) with
  | none => rw [hc] at hn'; exact Option.noConfusion hn'
  | some t' =>
    rw [hc] at hn'
    have ht : some t' = some n := hn'
    rw [Option.some.inj ht]

theorem searchTree_of_getNode_none {log : List (Nat × Nat)} {t : GTree} {a b : Nat}
    (h : PathOk log t)
    (hn : getNode (idxPath log ++ [a * 5 + b]) t = none) :
    searchTreeFn log t a b = [] := by
  rw [getNode_append, walkLog_eq_getNode h] at hn
  have hn' : getNode [a * 5 + b] (walkLog log t) = none := hn
  rw [getNode_cons] at hn'
  unfold searchTreeFn
  cases hc : (walkLog log t).child (a * 5 + b) with
  | none => rfl
  | some t' =>
    rw [hc] at hn'
    have ht : some t' = (none : Option GTree) := hn'
    exact Option.noConfusion ht

theorem getNode_none_of_searchTree_nil {log : List (Nat × Nat)} {t : GTree} {a b : Nat}
    (h : PathOk log t) (hwf : WFTree t) (hs : searchTreeFn log t a b = []) :
    getNode (idxPath log ++ [a * 5 + b]) t = none := by
  cases hn : getNode (idxPath log ++ [a * 5 + b]) t with
  | none => rfl
  | some n =>
    have hr := searchTree_of_getNode_some h hn
    rw [hs] at hr
    exact absurd hr.symm (hwf _ n hn).2

theorem searchTree_some_of_ne_nil {log : List (Nat × Nat)} {t : GTree} {a b : Nat}
    (h : PathOk log t) (hs : searchTreeFn log t a b ≠ []) :
    ∃ n, getNode (idxPath log ++ [a * 5 + b]) t = some n ∧
      GTree.record n = searchTreeFn log t a b := by
  cases hn : getNode (idxPath log ++ [a * 5 + b]) t with
  | none => exact absurd (searchTree_of_getNode_none h hn) hs
  | some n => exact ⟨n, rfl, (searchTree_of_getNode_some h hn).symm⟩

theorem snoc_split {p q r : List Nat} {i : Nat} (h : p ++ q = r ++ [i]) :
    (p = r ++ [i] ∧ q = []) ∨ ∃ q', q = q' ++ [i] ∧ p ++ q' = r := by
  rcases List.eq_nil_or_concat q with rfl | ⟨q', j, rfl⟩
  · rw [List.append_nil] at h
    exact Or.inl ⟨h, rfl⟩
  · right
    rw [List.concat_eq_append, ← List.append_assoc] at h
    have h2 := List.append_inj' h rfl
    obtain ⟨h3, h4⟩ := h2
    have hj : j = i := by
      have := List.cons.inj h4
      exact this.1
    exact ⟨q', by rw [hj, List.concat_eq_append], h3⟩

theorem pathOk_snoc {log : List (Nat × Nat)} {t : GTree} {a b : Nat}
    (h : PathOk log t) (hn : (getNode (idxPath log ++ [a * 5 + b]) t).isSome) :
    PathOk (log ++ [(a, b)]) t := by
  intro p q hpq
  rw [idxPath_append] at hpq
  have hpq' : p ++ q = idxPath log ++ [a * 5 + b] := hpq
  rcases snoc_split hpq' with ⟨hp, -⟩ | ⟨q', -, hpq''⟩
  · rw [hp]
    exact hn
  · exact h p q' hpq''

/-! ## `_update_tree`: equations and structural lemmas -/

theorem updateTreeFn_nil_none (r : List Char) (ch : List (Option GTree)) (g : List Char)
    (a b : Nat) (habs : ch.getD (a * 5 + b) none = none) :
    updateTreeFn [] (GTree.node r ch) g a b
      = GTree.node r (ch.set (a * 5 + b) (some (GTree.node g (List.replicate 25 none)))) := by
  rw [updateTreeFn, habs]

theorem updateTreeFn_nil_some (r : List Char) (ch : List (Option GTree)) (g : List Char)
    (a b : Nat) (t' : GTree) (hch : ch.getD (a * 5 + b) none = some t') :
    updateTreeFn [] (GTree.node r ch) g a b = GTree.node r ch := by
  rw [updateTreeFn, hch]

theorem updateTreeFn_cons_skip (k : Nat × Nat) (r : List Char) (ch : List (Option GTree))
    (rest : List (Nat × Nat)) (g : List Char) (a b : Nat)
    (habs : ch.getD (k.1 * 5 + k.2) none = none) :
    updateTreeFn (k :: rest) (GTree.node r ch) g a b
      = updateTreeFn rest (GTree.node r ch) g a b := by
  rw [updateTreeFn, habs]

theorem updateTreeFn_cons_follow (k : Nat × Nat) (r : List Char) (ch : List (Option GTree))
    (rest : List (Nat × Nat)) (g : List Char) (a b : Nat) (t' : GTree)
    (hch : ch.getD (k.1 * 5 + k.2) none = some t') :
    updateTreeFn (k :: rest) (GTree.node r ch) g a b
      = GTree.node r (ch.set (k.1 * 5 + k.2) (some (updateTreeFn rest t' g a b))) := by
  rw [updateTreeFn, hch]

theorem wf_child {t t' : GTree} {i : Nat} (hwf : WFTree t) (hc : t.child i = some t') :
    WFTree t' := by
  intro p n hp
  apply hwf (i :: p)
  rw [getNode_cons, hc]
  exact hp

theorem wf_leaf {g : List Char} (hg : g ≠ []) :
    WFTree (GTree.node g (List.replicate 25 none)) := by
  intro p n hp
  cases p with
  | nil =>
    have h1 : GTree.node g (List.replicate 25 none) = n := Option.some.inj hp
    rw [← h1]
    exact ⟨List.length_replicate .., hg⟩
  | cons i p' =>
    rw [getNode_cons] at hp
    have hci : (GTree.node g (List.replicate 25 none)).child i = none :=
      getD_replicate_none 25 i
    rw [hci] at hp
    exact Option.noConfusion hp

theorem wf_set_child {r : List Char} {ch : List (Option GTree)} {u : GTree} {i : Nat}
    (hwf : WFTree (GTree.node r ch)) (hu : WFTree u) :
    WFTree (GTree.node r (ch.set i (some u))) := by
  intro p n hp
  cases p with
  | nil =>
    have hn : GTree.node r (ch.set i (some u)) = n := Option.some.inj hp
    rw [← hn]
    have hroot := hwf [] (GTree.node r ch) rfl
    refine ⟨?_, hroot.2⟩
    show (ch.set i (some u)).length = 25
    rw [List.length_set]
    exact hroot.1
  | cons j p' =>
    rw [getNode_cons] at hp
    have hcj : (GTree.node r (ch.set i (some u))).child j
        = if i = j ∧ i < ch.length then some u else ch.getD j none :=
      getD_set_cases ch i j (some u) none
    rw [hcj] at hp
    by_cases hij : i = j ∧ i < ch.length
    · rw [if_pos hij] at hp
      exact hu p' n hp
    · rw [if_neg hij] at hp
      cases hc : ch.getD j none with
      | none => rw [hc] at hp; exact Option.noConfusion hp
      | some c =>
        rw [hc] at hp
        apply hwf (j :: p')
        rw [getNode_cons]
        show (match ch.getD j none with | none => none | some t' => getNode p' t') = some n
        rw [hc]
        exact hp

theorem treeExt_new_child {r : List Char} {ch : List (Option GTree)} {i : Nat}
    (u : Option GTree) (hc : ch.getD i none = none) :
    TreeExt (GTree.node r ch) (GTree.node r (ch.set i u)) := by
  intro p n1 hp
  cases p with
  | nil =>
    have h1 : GTree.node r ch = n1 := Option.some.inj hp
    refine ⟨GTree.node r (ch.set i u), rfl, ?_⟩
    rw [← h1]
    rfl
  | cons j p' =>
    rw [getNode_cons] at hp
    cases hcj : (GTree.node r ch).child j with
    | none => rw [hcj] at hp; exact Option.noConfusion hp
    | some c =>
      rw [hcj] at hp
      have hij : ¬ (i = j ∧ i < ch.length) := by
        rintro ⟨rfl, -⟩
        have hcc : ch.getD i none = some c := hcj
        rw [hc] at hcc
        exact Option.noConfusion hcc
      refine ⟨n1, ?_, rfl⟩
      rw [getNode_cons]
      have hcj' : (GTree.node r (ch.set i u)).child j = ch.getD j none := by
        have h1 := getD_set_cases ch i j u none
        rw [if_neg hij] at h1
        exact h1
      rw [hcj']
      have hcj'' : ch.getD j none = some c := hcj
      rw [hcj'']
      exact hp

theorem treeExt_set_child {r : List Char} {ch : List (Option GTree)} {t' u : GTree} {i : Nat}
    (hc : ch.getD i none = some t') (hext : TreeExt t' u) :
    TreeExt (GTree.node r ch) (GTree.node r (ch.set i (some u))) := by
  intro p n1 hp
  cases p with
  | nil =>
    have h1 : GTree.node r ch = n1 := Option.some.inj hp
    refine ⟨GTree.node r (ch.set i (some u)), rfl, ?_⟩
    rw [← h1]
    rfl
  | cons j p' =>
    rw [getNode_cons] at hp
    cases hcj : (GTree.node r ch).child j with
    | none => rw [hcj] at hp; exact Option.noConfusion hp
    | some c =>
      rw [hcj] at hp
      by_cases hij : i = j
      · subst hij
        have hct : c = t' := by
          have h1 : ch.getD i none = some c := hcj
          rw [hc] at h1
          exact (Option.some.inj h1).symm
        subst hct
        obtain ⟨n2, hn2, hr2⟩ := hext p' n1 hp
        refine ⟨n2, ?_, hr2⟩
        rw [getNode_cons]
        have hcj' : (GTree.node r (ch.set i (some u))).child i = some u := by
          have h1 := getD_set_cases ch i i (some u) none
          rw [if_pos ⟨rfl, getD_some_lt hc⟩] at h1
          exact h1
        rw [hcj']
        exact hn2
      · refine ⟨n1, ?_, rfl⟩
        rw [getNode_cons]
        have hcj' : (GTree.node r (ch.set i (some u))).child j = ch.getD j none := by
          have h1 := getD_set_cases ch i j (some u) none
          rw [if_neg (fun hh => hij hh.1)] at h1
          exact h1
        rw [hcj']
        have hcj'' : ch.getD j none = some c := hcj
        rw [hcj'']
        exact hp

/-- `_update_tree` only ever adds a node: every node of the old tree is still
present, with its record unchanged. -/
theorem updateTreeFn_ext (log : List (Nat × Nat)) (g : List Char) (a b : Nat) :
    ∀ t : GTree, TreeExt t (updateTreeFn log t g a b) := by
  induction log with
  | nil =>
    intro t
    obtain ⟨r, ch⟩ := t
    cases hc : ch.getD (a * 5 + b) none with
    | none =>
      rw [updateTreeFn_nil_none r ch g a b hc]
      exact treeExt_new_child _ hc
    | some t' =>
      rw [updateTreeFn_nil_some r ch g a b t' hc]
      exact treeExt_refl _
  | cons k rest ih =>
    intro t
    obtain ⟨r, ch⟩ := t
    cases hc : ch.getD (k.1 * 5 + k.2) none with
    | none =>
      rw [updateTreeFn_cons_skip k r ch rest g a b hc]
      exact ih _
    | some t' =>
      rw [updateTreeFn_cons_follow k r ch rest g a b t' hc]
      exact treeExt_set_child hc (ih t')

/-- `_update_tree` preserves well-formedness when the inserted record is
non-empty. -/
theorem updateTreeFn_wf (log : List (Nat × Nat)) (g : List Char) (a b : Nat) (hg : g ≠ []) :
    ∀ t : GTree, WFTree t → WFTree (updateTreeFn log t g a b) := by
  induction log with
  | nil =>
    intro t hwf
    obtain ⟨r, ch⟩ := t
    cases hc : ch.getD (a * 5 + b) none with
    | none =>
      rw [updateTreeFn_nil_none r ch g a b hc]
      exact wf_set_child hwf (wf_leaf hg)
    | some t' =>
      rw [updateTreeFn_nil_some r ch g a b t' hc]
      exact hwf
  | cons k rest ih =>
    intro t hwf
    obtain ⟨r, ch⟩ := t
    cases hc : ch.getD (k.1 * 5 + k.2) none with
    | none =>
      rw [updateTreeFn_cons_skip k r ch rest g a b hc]
      exact ih _ hwf
    | some t' =>
      rw [updateTreeFn_cons_follow k r ch rest g a b t' hc]
      have hcc : (GTree.node r ch).child (k.1 * 5 + k.2) = some t' := hc
      exact wf_set_child hwf (ih t' (wf_child hwf hcc))

/-- On a cache miss at the walked history path, `_update_tree` installs a fresh
node carrying the inserted guess exactly at that path. -/
theorem updateTreeFn_insert (log : List (Nat × Nat)) (g : List Char) (a b : Nat)
    (hab : a * 5 + b < 25) :
    ∀ t : GTree, PathOk log t → WFTree t →
      getNode (idxPath log ++ [a * 5 + b]) t = none →
      getNode (idxPath log ++ [a * 5 + b]) (updateTreeFn log t g a b)
        = some (GTree.node g (List.replicate 25 none)) := by
  induction log with
  | nil =>
    intro t hok hwf hmiss
    obtain ⟨r, ch⟩ := t
    have hch : ch.getD (a * 5 + b) none = none := by
      have hm : getNode [a * 5 + b] (GTree.node r ch) = none := hmiss
      rw [getNode_cons] at hm
      cases hc : (GTree.node r ch).child (a * 5 + b) with
      | none => exact hc
      | some c =>
        rw [hc] at hm
        exact Option.noConfusion (show some c = (none : Option GTree) from hm)
    rw [updateTreeFn_nil_none r ch g a b hch]
    have hlen : ch.length = 25 := (hwf [] (GTree.node r ch) rfl).1
    show getNode [a * 5 + b]
        (GTree.node r (ch.set (a * 5 + b) (some (GTree.node g (List.replicate 25 none)))))
      = some (GTree.node g (List.replicate 25 none))
    rw [getNode_cons]
    have hcj : (GTree.node r
          (ch.set (a * 5 + b) (some (GTree.node g (List.replicate 25 none))))).child (a * 5 + b)
        = some (GTree.node g (List.replicate 25 none)) := by
      have h1 := getD_set_cases ch (a * 5 + b) (a * 5 + b)
        (some (GTree.node g (List.replicate 25 none))) none
      rw [if_pos ⟨rfl, by omega⟩] at h1
      exact h1
    rw [hcj]
    rfl
  | cons k rest ih =>
    intro t hok hwf hmiss
    obtain ⟨r, ch⟩ := t
    obtain ⟨t', hc, hrest⟩ := pathOk_cons hok
    have hc' : ch.getD (k.1 * 5 + k.2) none = some t' := hc
    have hlt : k.1 * 5 + k.2 < ch.length := getD_some_lt hc'
    rw [updateTreeFn_cons_follow k r ch rest g a b t' hc']
    have hm : getNode ((k.1 * 5 + k.2) :: (idxPath rest ++ [a * 5 + b]))
        (GTree.node r ch) = none := hmiss
    rw [getNode_cons] at hm
    have hcc : (GTree.node r ch).child (k.1 * 5 + k.2) = some t' := hc
    rw [hcc] at hm
    show getNode ((k.1 * 5 + k.2) :: (idxPath rest ++ [a * 5 + b]))
        (GTree.node r (ch.set (k.1 * 5 + k.2) (some (updateTreeFn rest t' g a b))))
      = some (GTree.node g (List.replicate 25 none))
    rw [getNode_cons]
    have hcj : (GTree.node r
          (ch.set (k.1 * 5 + k.2) (some (updateTreeFn rest t' g a b)))).child (k.1 * 5 + k.2)
        = some (updateTreeFn rest t' g a b) := by
      have h1 := getD_set_cases ch (k.1 * 5 + k.2) (k.1 * 5 + k.2)
        (some (updateTreeFn rest t' g a b)) none
      rw [if_pos ⟨rfl, hlt⟩] at h1
      exact h1
    rw [hcj]
    exact ih t' hrest (wf_child hwf hcc) hm

theorem mkTree_wf : WFTree mkTree :=
  wf_leaf (by decide)

/-! ## The two-session cache-consistency argument -/

theorem runGame_cons_fst (s : AIState) (fb : List Char) (rest : List (List Char)) :
    (runGame s (fb :: rest)).1 = (runGame (guess s (some fb)).1 rest).1 := rfl

theorem runGame_cons_guesses (s : AIState) (fb : List Char) (rest : List (List Char)) :
    (runGame s (fb :: rest)).2.1
      = (guess s (some fb)).2 :: (runGame (guess s (some fb)).1 rest).2.1 := rfl

theorem runGame_cons_paths (s : AIState) (fb : List Char) (rest : List (List Char)) :
    (runGame s (fb :: rest)).2.2
      = (if (!((filterRecord s.records s.previous (pyInt (fb.getD 0 ' '))
              (pyInt (fb.getD 2 ' '))).length == 1) &&
            (searchTreeFn s.log s.tree (pyInt (fb.getD 0 ' '))
              (pyInt (fb.getD 2 ' ')) == [])) = true
         then [s.log ++ [(pyInt (fb.getD 0 ' '), pyInt (fb.getD 2 ' '))]] else [])
        ++ (runGame (guess s (some fb)).1 rest).2.2 := rfl

theorem runSession_fst (s : AIState) (fbs : List (List Char)) :
    (runSession s fbs).1 = (runGame (guess s none).1 fbs).1 := rfl

theorem runSession_guesses (s : AIState) (fbs : List (List Char)) :
    (runSession s fbs).2.1 = (guess s none).2 :: (runGame (guess s none).1 fbs).2.1 := rfl

theorem runSession_paths (s : AIState) (fbs : List (List Char)) :
    (runSession s fbs).2.2 = (runGame (guess s none).1 fbs).2.2 := rfl

theorem record_node (r : List Char) (ch : List (Option GTree)) :
    GTree.record (GTree.node r ch) = r := rfl

theorem pairFst_previous (p : List Char) (l : List (Nat × Nat)) (r : List (List Char))
    (t : GTree) (g : List Char) :
    ((AIState.mk p l r t, g) : AIState × List Char).1.previous = p := rfl

/-- One `guess` step only ever extends the decision tree. -/
theorem guess_treeExt (s : AIState) (fb : List Char) :
    TreeExt s.tree (guess s (some fb)).1.tree := by
  by_cases h1 : (filterRecord s.records s.previous (pyInt (fb.getD 0 ' '))
      (pyInt (fb.getD 2 ' '))).length = 1
  · rw [guess_some_short s fb h1]
    exact treeExt_refl _
  · by_cases h2 : searchTreeFn s.log s.tree (pyInt (fb.getD 0 ' ')) (pyInt (fb.getD 2 ' ')) = []
    · rw [guess_some_miss s fb h1 h2]
      exact updateTreeFn_ext s.log _ _ _ s.tree
    · rw [guess_some_hit s fb h1 h2]
      exact treeExt_refl _

/-- A whole game run only ever extends the decision tree. -/
theorem runGame_treeExt (fbs : List (List Char)) :
    ∀ s : AIState, TreeExt s.tree (runGame s fbs).1.tree := by
  induction fbs with
  | nil => intro s; exact treeExt_refl _
  | cons fb rest ih =>
    intro s
    have h3 : (runGame s (fb :: rest)).1 = (runGame (guess s (some fb)).1 rest).1 :=
      runGame_cons_fst s fb rest
    rw [h3]
    exact treeExt_trans (guess_treeExt s fb) (ih (guess s (some fb)).1)

/-- One synchronized step of the two sessions: if the second session's state
agrees with the first's except that its tree already extends everything the
first session's run will ever build, then this step returns the same guess in
both sessions, keeps the fields synchronized, preserves the first session's
invariants, leaves the second session's tree untouched, and the second session
does not run the minimax scan. -/
theorem guess_sync_step (s1 s2 : AIState) (fb : List Char)
    (hprev : s2.previous = s1.previous) (hlog : s2.log = s1.log)
    (hrec : s2.records = s1.records) (hlen5040 : s1.records.length ≤ 5040)
    (hwf : WFTree s1.tree) (hok : PathOk s1.log s1.tree)
    (hab : pyInt (fb.getD 0 ' ') ≤ 4 ∧ pyInt (fb.getD 2 ' ') ≤ 4)
    (hstep_ext : TreeExt (guess s1 (some fb)).1.tree s2.tree) :
    (guess s2 (some fb)).2 = (guess s1 (some fb)).2 ∧
    (guess s2 (some fb)).1.previous = (guess s1 (some fb)).1.previous ∧
    (guess s2 (some fb)).1.log = (guess s1 (some fb)).1.log ∧
    (guess s2 (some fb)).1.records = (guess s1 (some fb)).1.records ∧
    (guess s1 (some fb)).1.records.length ≤ 5040 ∧
    WFTree (guess s1 (some fb)).1.tree ∧
    PathOk (guess s1 (some fb)).1.log (guess s1 (some fb)).1.tree ∧
    (guess s2 (some fb)).1.tree = s2.tree ∧
    (!((filterRecord s2.records s2.previous (pyInt (fb.getD 0 ' '))
        (pyInt (fb.getD 2 ' '))).length == 1) &&
      (searchTreeFn s2.log s2.tree (pyInt (fb.getD 0 ' '))
        (pyInt (fb.getD 2 ' ')) == [])) = false := by
  have hfilter : filterRecord s2.records s2.previous (pyInt (fb.getD 0 ' '))
      (pyInt (fb.getD 2 ' '))
      = filterRecord s1.records s1.previous (pyInt (fb.getD 0 ' '))
        (pyInt (fb.getD 2 ' ')) := by
    rw [hrec, hprev]
  have hflen : (filterRecord s1.records s1.previous (pyInt (fb.getD 0 ' '))
      (pyInt (fb.getD 2 ' '))).length ≤ 5040 :=
    le_trans (filterRecord_length_le s1.records s1.previous _ _) hlen5040
  have hidx : pyInt (fb.getD 0 ' ') * 5 + pyInt (fb.getD 2 ' ') < 25 := by
    obtain ⟨ha, hb⟩ := hab
    omega
  have hext12 : TreeExt s1.tree s2.tree :=
    treeExt_trans (guess_treeExt s1 fb) hstep_ext
  have hok2 : PathOk s2.log s2.tree := by
    rw [hlog]
    exact pathOk_mono hext12 hok
  by_cases hlen1 : (filterRecord s1.records s1.previous (pyInt (fb.getD 0 ' '))
      (pyInt (fb.getD 2 ' '))).length = 1
  · have hlen2 : (filterRecord s2.records s2.previous (pyInt (fb.getD 0 ' '))
        (pyInt (fb.getD 2 ' '))).length = 1 := by
      rw [hfilter]
      exact hlen1
    rw [guess_some_short s1 fb hlen1, guess_some_short s2 fb hlen2]
    refine ⟨?_, hprev, hlog, hfilter, hflen, hwf, hok, rfl, ?_⟩
    · show (filterRecord s2.records s2.previous (pyInt (fb.getD 0 ' '))
          (pyInt (fb.getD 2 ' '))).headD []
        = (filterRecord s1.records s1.previous (pyInt (fb.getD 0 ' '))
          (pyInt (fb.getD 2 ' '))).headD []
      rw [hfilter]
    · rw [hfilter, hlen1]
      simp
  · have hlen2 : (filterRecord s2.records s2.previous (pyInt (fb.getD 0 ' '))
        (pyInt (fb.getD 2 ' '))).length ≠ 1 := by
      rw [hfilter]
      exact hlen1
    by_cases hsr : searchTreeFn s1.log s1.tree (pyInt (fb.getD 0 ' '))
        (pyInt (fb.getD 2 ' ')) = []
    · -- session 1 misses and inserts; session 2 hits the inserted node
      have hmiss1 : getNode (idxPath s1.log
            ++ [pyInt (fb.getD 0 ' ') * 5 + pyInt (fb.getD 2 ' ')]) s1.tree = none :=
        getNode_none_of_searchTree_nil hok hwf hsr
      rw [guess_some_miss s1 fb hlen1 hsr] at hstep_ext ⊢
      have hextU : TreeExt (updateTreeFn s1.log s1.tree
          (selectCandidate (filterRecord s1.records s1.previous (pyInt (fb.getD 0 ' '))
            (pyInt (fb.getD 2 ' ')))).1
          (pyInt (fb.getD 0 ' ')) (pyInt (fb.getD 2 ' '))) s2.tree := hstep_ext
      have hins : getNode (idxPath s1.log
            ++ [pyInt (fb.getD 0 ' ') * 5 + pyInt (fb.getD 2 ' ')])
          (updateTreeFn s1.log s1.tree
            (selectCandidate (filterRecord s1.records s1.previous (pyInt (fb.getD 0 ' '))
              (pyInt (fb.getD 2 ' ')))).1
            (pyInt (fb.getD 0 ' ')) (pyInt (fb.getD 2 ' ')))
          = some (GTree.node
              (selectCandidate (filterRecord s1.records s1.previous (pyInt (fb.getD 0 ' '))
                (pyInt (fb.getD 2 ' ')))).1
              (List.replicate 25 none)) :=
        updateTreeFn_insert s1.log _ _ _ hidx s1.tree hok hwf hmiss1
      obtain ⟨n2, hn2, hrn2⟩ := hextU _ _ hins
      have hn2' : getNode (idxPath s2.log
            ++ [pyInt (fb.getD 0 ' ') * 5 + pyInt (fb.getD 2 ' ')]) s2.tree = some n2 := by
        rw [hlog]
        exact hn2
      have hsr2 : searchTreeFn s2.log s2.tree (pyInt (fb.getD 0 ' '))
          (pyInt (fb.getD 2 ' ')) = GTree.record n2 :=
        searchTree_of_getNode_some hok2 hn2'
      have hGne : (selectCandidate (filterRecord s1.records s1.previous (pyInt (fb.getD 0 ' '))
          (pyInt (fb.getD 2 ' ')))).1 ≠ [] :=
        selectCandidate_ne_nil _ hflen
      have hsr2G : searchTreeFn s2.log s2.tree (pyInt (fb.getD 0 ' '))
          (pyInt (fb.getD 2 ' '))
          = (selectCandidate (filterRecord s1.records s1.previous (pyInt (fb.getD 0 ' '))
            (pyInt (fb.getD 2 ' ')))).1 :=
        (hsr2.trans hrn2).trans (record_node _ _)
      have hsr2ne : searchTreeFn s2.log s2.tree (pyInt (fb.getD 0 ' '))
          (pyInt (fb.getD 2 ' ')) ≠ [] := by
        rw [hsr2G]
        exact hGne
      rw [guess_some_hit s2 fb hlen2 hsr2ne]
      refine ⟨(pairSnd _ _).trans (hsr2G.trans (pairSnd _ _).symm),
        (pairFst_previous _ _ _ _ _).trans (hsr2G.trans (pairFst_previous _ _ _ _ _).symm),
        ?_, hfilter, hflen,
        updateTreeFn_wf s1.log _ _ _ hGne s1.tree hwf,
        pathOk_snoc (pathOk_mono (updateTreeFn_ext s1.log _ _ _ s1.tree) hok)
          (by rw [hins]; rfl),
        rfl, ?_⟩
      · show s2.log ++ [(pyInt (fb.getD 0 ' '), pyInt (fb.getD 2 ' '))]
          = s1.log ++ [(pyInt (fb.getD 0 ' '), pyInt (fb.getD 2 ' '))]
        rw [hlog]
      · have hb : (searchTreeFn s2.log s2.tree (pyInt (fb.getD 0 ' '))
            (pyInt (fb.getD 2 ' ')) == ([] : List Char)) = false := by
          cases hx : (searchTreeFn s2.log s2.tree (pyInt (fb.getD 0 ' '))
              (pyInt (fb.getD 2 ' ')) == ([] : List Char)) with
          | false => rfl
          | true => exact absurd (eq_of_beq hx) hsr2ne
        rw [hb, Bool.and_false]
    · -- session 1 hits the cache; so does session 2, with the same record
      obtain ⟨n, hn, hrn⟩ := searchTree_some_of_ne_nil hok hsr
      obtain ⟨n2, hn2, hrn2⟩ := hext12 _ n hn
      have hn2' : getNode (idxPath s2.log
            ++ [pyInt (fb.getD 0 ' ') * 5 + pyInt (fb.getD 2 ' ')]) s2.tree = some n2 := by
        rw [hlog]
        exact hn2
      have hsr2 : searchTreeFn s2.log s2.tree (pyInt (fb.getD 0 ' '))
          (pyInt (fb.getD 2 ' ')) = GTree.record n2 :=
        searchTree_of_getNode_some hok2 hn2'
      have hsr2eq : searchTreeFn s2.log s2.tree (pyInt (fb.getD 0 ' '))
          (pyInt (fb.getD 2 ' '))
          = searchTreeFn s1.log s1.tree (pyInt (fb.getD 0 ' '))
            (pyInt (fb.getD 2 ' ')) :=
        (hsr2.trans hrn2).trans hrn
      have hsr2ne : searchTreeFn s2.log s2.tree (pyInt (fb.getD 0 ' '))
          (pyInt (fb.getD 2 ' ')) ≠ [] := by
        rw [hsr2eq]
        exact hsr
      rw [guess_some_hit s1 fb hlen1 hsr, guess_some_hit s2 fb hlen2 hsr2ne]
      refine ⟨hsr2eq, hsr2eq, ?_, hfilter, hflen, hwf,
        pathOk_snoc hok (by rw [hn]; rfl), rfl, ?_⟩
      · show s2.log ++ [(pyInt (fb.getD 0 ' '), pyInt (fb.getD 2 ' '))]
          = s1.log ++ [(pyInt (fb.getD 0 ' '), pyInt (fb.getD 2 ' '))]
        rw [hlog]
      · have hb : (searchTreeFn s2.log s2.tree (pyInt (fb.getD 0 ' '))
            (pyInt (fb.getD 2 ' ')) == ([] : List Char)) = false := by
          cases hx : (searchTreeFn s2.log s2.tree (pyInt (fb.getD 0 ' '))
              (pyInt (fb.getD 2 ' ')) == ([] : List Char)) with
          | false => rfl
          | true => exact absurd (eq_of_beq hx) hsr2ne
        rw [hb, Bool.and_false]

/-- Two runs over the same feedback strings, the second starting from fields
synchronized with the first and a tree extending everything the first run will
build: the second run returns the same guesses, never runs the minimax scan,
and leaves its tree untouched. -/
theorem runGame_sync (fbs : List (List Char)) :
    ∀ s1 s2 : AIState,
      (∀ fb ∈ fbs, pyInt (fb.getD 0 ' ') ≤ 4 ∧ pyInt (fb.getD 2 ' ') ≤ 4) →
      s2.previous = s1.previous → s2.log = s1.log → s2.records = s1.records →
      s1.records.length ≤ 5040 → WFTree s1.tree → PathOk s1.log s1.tree →
      TreeExt (runGame s1 fbs).1.tree s2.tree →
      (runGame s2 fbs).2.1 = (runGame s1 fbs).2.1 ∧
      (runGame s2 fbs).2.2 = [] ∧ (runGame s2 fbs).1.tree = s2.tree := by
  induction fbs with
  | nil =>
    intro s1 s2 _ _ _ _ _ _ _ _
    exact ⟨rfl, rfl, rfl⟩
  | cons fb rest ih =>
    intro s1 s2 hfb hprev hlog hrec hlen5040 hwf hok hext
    have hfbh := hfb fb (List.mem_cons_self fb rest)
    have hfbr : ∀ f ∈ rest, pyInt (f.getD 0 ' ') ≤ 4 ∧ pyInt (f.getD 2 ' ') ≤ 4 :=
      fun f hf => hfb f (List.mem_cons_of_mem fb hf)
    have h6 : TreeExt (runGame (guess s1 (some fb)).1 rest).1.tree s2.tree := by
      rw [← runGame_cons_fst s1 fb rest]
      exact hext
    have hstep_ext : TreeExt (guess s1 (some fb)).1.tree s2.tree :=
      treeExt_trans (runGame_treeExt rest (guess s1 (some fb)).1) h6
    obtain ⟨e1, e2, e3, e4, e5, e6, e7, e8, e9⟩ :=
      guess_sync_step s1 s2 fb hprev hlog hrec hlen5040 hwf hok hfbh hstep_ext
    have hext2 : TreeExt (runGame (guess s1 (some fb)).1 rest).1.tree
        (guess s2 (some fb)).1.tree := by
      rw [e8]
      exact h6
    obtain ⟨ihg, ihp, iht⟩ :=
      ih (guess s1 (some fb)).1 (guess s2 (some fb)).1 hfbr e2 e3 e4 e5 e6 e7 hext2
    refine ⟨?_, ?_, ?_⟩
    · rw [runGame_cons_guesses s2 fb rest, runGame_cons_guesses s1 fb rest, e1, ihg]
    · rw [runGame_cons_paths s2 fb rest, e9, ihp]
      simp
    · rw [runGame_cons_fst s2 fb rest, iht, e8]

/-- Claim C6: for two game sessions played sequentially on the same engine
instance (the second starting from the first session's final state, so both
begin with `guess(None)` and the second inherits the decision tree the first
session built) that receive identical feedback sequences, `guess` returns
identical guesses at every step, and the second session never runs the minimax
scan at any history path — in particular never for a path the first session
already populated in the decision tree. -/
theorem claimC6 (s : AIState) (fbs : List (List Char)) (hwf : WFTree s.tree)
    (hfb : ∀ fb ∈ fbs, pyInt (fb.getD 0 ' ') ≤ 4 ∧ pyInt (fb.getD 2 ' ') ≤ 4) :
    (runSession (runSession s fbs).1 fbs).2.1 = (runSession s fbs).2.1 ∧
    ∀ p ∈ (runSession (runSession s fbs).1 fbs).2.2, p ∉ (runSession s fbs).2.2 := by
  have hset1 : (guess s none).1
      = ⟨['0', '1', '2', '3'], [], numberList, s.tree⟩ :=
    (congrArg Prod.fst (guess_none_eq s)).trans (pairFst _ _)
  have hout1 : (guess s none).2 = ['0', '1', '2', '3'] :=
    (congrArg Prod.snd (guess_none_eq s)).trans (pairSnd _ _)
  have hs2 : (runSession s fbs).1
      = (runGame (⟨['0', '1', '2', '3'], [], numberList, s.tree⟩ : AIState) fbs).1 := by
    rw [runSession_fst, hset1]
  have hset2 : (guess (runSession s fbs).1 none).1
      = ⟨['0', '1', '2', '3'], [], numberList,
          (runGame (⟨['0', '1', '2', '3'], [], numberList, s.tree⟩ : AIState) fbs).1.tree⟩ := by
    rw [(congrArg Prod.fst (guess_none_eq (runSession s fbs).1)).trans (pairFst _ _), hs2]
  have hout2 : (guess (runSession s fbs).1 none).2 = ['0', '1', '2', '3'] :=
    (congrArg Prod.snd (guess_none_eq (runSession s fbs).1)).trans (pairSnd _ _)
  obtain ⟨hg, hp, -⟩ := runGame_sync fbs
    ⟨['0', '1', '2', '3'], [], numberList, s.tree⟩
    ⟨['0', '1', '2', '3'], [], numberList,
      (runGame (⟨['0', '1', '2', '3'], [], numberList, s.tree⟩ : AIState) fbs).1.tree⟩
    hfb rfl rfl rfl (le_of_eq numberList_length) hwf (pathOk_nil _) (treeExt_refl _)
  constructor
  · rw [runSession_guesses (runSession s fbs).1 fbs, runSession_guesses s fbs,
      hout2, hout1, hset2, hset1, hg]
  · intro p hp2
    rw [runSession_paths (runSession s fbs).1 fbs, hset2, hp] at hp2
    exact absurd hp2 (List.not_mem_nil p)

/-- Witness for claim C6: a fresh engine and the one-round feedback sequence
`['4A0B']` satisfy the hypotheses, and the theorem applies. -/
theorem claimC6_witness :
    (WFTree mkAI.tree ∧
      (∀ fb ∈ [['4', 'A', '0', 'B']],
        pyInt (fb.getD 0 ' ') ≤ 4 ∧ pyInt (fb.getD 2 ' ') ≤ 4)) ∧
    ((runSession (runSession mkAI [['4', 'A', '0', 'B']]).1 [['4', 'A', '0', 'B']]).2.1
        = (runSession mkAI [['4', 'A', '0', 'B']]).2.1 ∧
      ∀ p ∈ (runSession (runSession mkAI [['4', 'A', '0', 'B']]).1
          [['4', 'A', '0', 'B']]).2.2,
        p ∉ (runSession mkAI [['4', 'A', '0', 'B']]).2.2) :=
  ⟨⟨mkTree_wf, by decide⟩, claimC6 mkAI [['4', 'A', '0', 'B']] mkTree_wf (by decide)⟩

end GuessNumber
